import Mathlib

/-!
# FU540 platform-level interrupt controller

A shallow embedding of `vp/src/platform/common/fu540_plic.cpp`.

* Machine words are natural numbers; a store into a 32-bit register word
  truncates with `u32`, address arithmetic on `uint64_t` wraps with `u64`.
* `FU540_PLIC_HARTS` and `FU540_PLIC_NUMIRQ` come from `fu540_plic.h`; every
  definition that uses them takes them as the arguments `HARTS` and `NUMIRQ`.
* An exception, a failed `assert` and a use of an object that the C++ leaves
  undefined are the three constructors of `Fault`; fallible functions return
  `Except Fault _`.
* The register ranges allocated by `add_reg` are identified by their position
  in `register_ranges`; a `HartConfig` holds the positions of the two ranges
  its `m_mode` and `s_mode` views refer to, so that two views of the same range
  (hart 0) share their words.
* `e_run.notify` and the `std::cout` line of `addr2hart` are not modelled.
-/

namespace FU540

/-! ## Constants and basic types -/

def ENABLE_BASE : Nat := 0x2000
def ENABLE_PER_HART : Nat := 0x80
def CONTEXT_BASE : Nat := 0x200000
def CONTEXT_PER_HART : Nat := 0x1000
/-- The size of a hart register range, `2 * sizeof(uint32_t)`. -/
def HART_REG_SIZE : Nat := 2 * 4

/-- Truncation to `uint32_t`. -/
def u32 (n : Nat) : Nat := n % 2 ^ 32
/-- Truncation to `uint64_t`. -/
def u64 (n : Nat) : Nat := n % 2 ^ 64

/-- The word index of an interrupt id, `#define GET_IDX(IRQ) ((IRQ) / 32)`. -/
def GET_IDX (irq : Nat) : Nat := irq / 32
/-- The bit mask of an interrupt id, `#define GET_OFF(IRQ) (1 << (IRQ) % 32)`. -/
def GET_OFF (irq : Nat) : Nat := 1 <<< (irq % 32)

/-- The argument of a `std::invalid_argument`. -/
inductive Message where
  /-- "IRQ value is invalid" -/
  | irq_value_is_invalid
  /-- "hart0 doesn't support SupervisorMode" -/
  | hart0_no_supervisor
  /-- "Invalid PrivilegeLevel" -/
  | invalid_privilege_level
  deriving DecidableEq

/-- The ways in which the modelled code does not return normally. -/
inductive Fault where
  /-- A thrown `std::invalid_argument`. -/
  | invalid_argument (what : Message)
  /-- A failed `assert`, which aborts the process. -/
  | assertion
  /-- The C++ has no defined behaviour: a hart without `HartConfig` is
  dereferenced, or a local that was never assigned is read. -/
  | undefined
  deriving DecidableEq

/-- The type `PrivilegeLevel`, declared in the core headers that
`fu540_plic.cpp` includes: the two levels the controller names, and every other
value of the type, which the `default:` branches of the code receive. -/
inductive PrivilegeLevel where
  | MachineMode
  | SupervisorMode
  | other (code : Nat)
  deriving DecidableEq

open PrivilegeLevel

/-- The address window of a `RegisterRange`: `start` and the size in bytes
(the constructor call `RegisterRange(a, HART_REG_SIZE)`). -/
structure RegisterRange where
  start : Nat
  size : Nat
  deriving DecidableEq

/-- The last byte address of a range, the member `end` of the C++ class. -/
def RegisterRange.last (r : RegisterRange) : Nat := r.start + r.size - 1

/-- A `HartConfig(*mreg, *sreg)`: the positions in `register_ranges` of the
ranges viewed by `m_mode` and by `s_mode`. -/
structure HartConfig where
  m_mode : Nat
  s_mode : Nat
  deriving DecidableEq

/-- The type `hartmap`: a map from hart ids to `HartConfig` objects. -/
abbrev hartmap := Nat → Option HartConfig

/-- The statement `map[i] = new HartConfig(..)`. -/
def hartmap.set (map : hartmap) (i : Nat) (c : HartConfig) : hartmap :=
  fun k => if k = i then some c else map k

/-! ## Construction of the register layout -/

/-- The lambda `add_reg` of `create_hart_regs` (its parameter is a `uint64_t`):
allocate a range of `HART_REG_SIZE` bytes at `a`, push it on `register_ranges`,
return it (its position). -/
def add_reg (register_ranges : List RegisterRange) (a : Nat) :
    List RegisterRange × Nat :=
  (register_ranges ++ [⟨u64 a, HART_REG_SIZE⟩], register_ranges.length)

/-- One iteration (hart `i`) of the loop of `create_hart_regs`, on the triple
of `addr`, `register_ranges` and `map`. -/
def create_hart_regs_body (inc : Nat) (i : Nat)
    (st : Nat × List RegisterRange × hartmap) : Nat × List RegisterRange × hartmap :=
  let addr := st.1
  let rr := st.2.1
  let map := st.2.2
  let m := add_reg rr addr
  let rr := m.1
  let mreg := m.2
  if i ≠ 0 then
    let addr := u64 (addr + inc)
    let s := add_reg rr addr
    (u64 (addr + inc), s.1, map.set i ⟨mreg, s.2⟩)
  else
    (u64 (addr + inc), rr, map.set i ⟨mreg, mreg⟩)

/-- The loop `for (size_t i = 0; i < FU540_PLIC_HARTS; i++)` of
`create_hart_regs`, with `n` iterations left and `i` the next hart. -/
def create_hart_regs_loop (inc : Nat) :
    Nat → Nat → Nat × List RegisterRange × hartmap → Nat × List RegisterRange × hartmap
  | 0, _, st => st
  | n + 1, i, st => create_hart_regs_loop inc n (i + 1) (create_hart_regs_body inc i st)

/-- The method `FU540_PLIC::create_hart_regs(addr, inc, map)`: returns the extended
`register_ranges` and the filled `map`. -/
def create_hart_regs (HARTS : Nat) (addr inc : Nat) (register_ranges : List RegisterRange)
    (map : hartmap) : List RegisterRange × hartmap :=
  (create_hart_regs_loop inc HARTS 0 (addr, register_ranges, map)).2

/-- The range `regs_interrupt_priorities`, declared in `fu540_plic.h`; its window
is the one `create_registers` asserts. -/
def regs_interrupt_priorities : RegisterRange := ⟨0x4, 0xD8⟩
/-- The range `regs_pending_interrupts`, declared in `fu540_plic.h`; its window is the
one `create_registers` asserts. -/
def regs_pending_interrupts : RegisterRange := ⟨0x1000, 0x8⟩

/-- The function `assert_addr(start, end, range)`. -/
def assert_addr (start last : Nat) (range : RegisterRange) : Except Fault Unit :=
  if range.start = start ∧ range.last + 1 = last + 0x4 then .ok () else .error .assertion

/-- What construction leaves behind: the registered ranges and the two maps. -/
structure Layout where
  register_ranges : List RegisterRange
  enabled_irqs : hartmap
  hart_context : hartmap

/-- The method `FU540_PLIC::create_registers`. -/
def create_registers (HARTS : Nat) : Except Fault Layout :=
  match assert_addr 0x4 0xD8 regs_interrupt_priorities with
  | .error e => .error e
  | .ok _ =>
    match assert_addr 0x1000 0x1004 regs_pending_interrupts with
    | .error e => .error e
    | .ok _ =>
      let rr := [regs_interrupt_priorities, regs_pending_interrupts]
      let en := create_hart_regs HARTS ENABLE_BASE ENABLE_PER_HART rr (fun _ => none)
      let cx := create_hart_regs HARTS CONTEXT_BASE CONTEXT_PER_HART en.1 (fun _ => none)
      .ok ⟨cx.1, en.2, cx.2⟩

/-- The layout of a constructed controller with `HARTS` harts (when an assertion
of `create_registers` fails there is no controller, and no range or map). -/
def layout (HARTS : Nat) : Layout :=
  match create_registers HARTS with
  | .ok l => l
  | .error _ => ⟨[], fun _ => none, fun _ => none⟩

/-- The member `enabled_irqs`. -/
def enabled_irqs (HARTS : Nat) : hartmap := (layout HARTS).enabled_irqs
/-- The member `hart_context`. -/
def hart_context (HARTS : Nat) : hartmap := (layout HARTS).hart_context

/-! ## The mutable state -/

/-- The register contents of the controller. `interrupt_priorities` and
`pending_interrupts` are the word views of the two static ranges; `regs k` are
the words of the range at position `k` of `register_ranges`. Indices are not
bounded: an access outside a range is not told apart from one inside. -/
structure FU540_PLIC where
  interrupt_priorities : Nat → Nat
  pending_interrupts : Nat → Nat
  regs : Nat → Nat → Nat

/-- A store `view[idx] = v` into the range at position `k`. -/
def FU540_PLIC.store (s : FU540_PLIC) (k idx v : Nat) : FU540_PLIC :=
  { s with regs := fun k2 i2 => if k2 = k ∧ i2 = idx then u32 v else s.regs k2 i2 }

/-! ## The operations -/

/-- The method `FU540_PLIC::gateway_trigger_interrupt`. -/
def gateway_trigger_interrupt (NUMIRQ : Nat) (s : FU540_PLIC) (irq : Nat) :
    Except Fault FU540_PLIC :=
  if irq > NUMIRQ then
    .error (.invalid_argument .irq_value_is_invalid)
  else
    .ok { s with pending_interrupts := fun i =>
            if i = GET_IDX irq then u32 (s.pending_interrupts i ||| GET_OFF irq)
            else s.pending_interrupts i }

/-- The method `FU540_PLIC::is_pending`. -/
def is_pending (s : FU540_PLIC) (irq : Nat) : Bool :=
  s.pending_interrupts (GET_IDX irq) &&& GET_OFF irq ≠ 0

/-- The method `FU540_PLIC::addr2hart`. -/
def addr2hart (_addr : Nat) : Nat := 0

/-- The method `HartConfig::is_enabled(irq, level)`: the returned flag, and the
content of `*level` afterwards (`level` is its content before; it is written
only when the flag is true). -/
def HartConfig.is_enabled (s : FU540_PLIC) (conf : HartConfig) (irq : Nat)
    (level : Option PrivilegeLevel) : Bool × Option PrivilegeLevel :=
  let idx := GET_IDX irq
  let off := GET_OFF irq
  if s.regs conf.m_mode idx &&& off ≠ 0 then (true, some MachineMode)
  else if s.regs conf.s_mode idx &&& off ≠ 0 then (true, some SupervisorMode)
  else (false, level)

/-- The method `FU540_PLIC::get_threshold`. -/
def get_threshold (HARTS : Nat) (s : FU540_PLIC) (hart : Nat) (level : PrivilegeLevel) :
    Except Fault Nat :=
  if hart = 0 ∧ level = SupervisorMode then
    .error (.invalid_argument .hart0_no_supervisor)
  else
    match level with
    | MachineMode =>
      match hart_context HARTS hart with
      | some conf => .ok (s.regs conf.m_mode 0)
      | none => .error .undefined
    | SupervisorMode =>
      match hart_context HARTS hart with
      | some conf => .ok (s.regs conf.s_mode 0)
      | none => .error .undefined
    | other _ => .error (.invalid_argument .invalid_privilege_level)

/-- The locals of `next_pending_irq` that the loop updates; `level` is `none`
as long as it has not been assigned. -/
structure Scan where
  level : Option PrivilegeLevel
  selirq : Nat
  maxpri : Nat
  deriving DecidableEq

/-- One iteration of the loop of `next_pending_irq`, for the source `irq`. -/
def scan_body (HARTS : Nat) (s : FU540_PLIC) (hart : Nat) (ignth : Bool)
    (conf : Option HartConfig) (irq : Nat) (st : Scan) : Except Fault Scan :=
  match conf with
  | none => .error .undefined
  | some conf =>
    let en := conf.is_enabled s irq st.level
    let st := { st with level := en.2 }
    if !en.1 || !is_pending s irq then .ok st
    else
      let prio := s.interrupt_priorities irq
      let pick : Scan :=
        if prio > st.maxpri then { st with maxpri := prio, selirq := irq } else st
      if ignth then .ok pick
      else
        match st.level with
        | none => .error .undefined
        | some level =>
          match get_threshold HARTS s hart level with
          | .error e => .error e
          | .ok thr => if prio < thr then .ok st else .ok pick

/-- The loop `for (unsigned irq = 1; irq <= FU540_PLIC_NUMIRQ; irq++)`, over the
list of the remaining values of `irq`. -/
def scan_loop (HARTS : Nat) (s : FU540_PLIC) (hart : Nat) (ignth : Bool)
    (conf : Option HartConfig) : List Nat → Scan → Except Fault Scan
  | [], st => .ok st
  | irq :: rest, st =>
    match scan_body HARTS s hart ignth conf irq st with
    | .error e => .error e
    | .ok st2 => scan_loop HARTS s hart ignth conf rest st2

/-- The locals of `next_pending_irq` at the exit of its loop. -/
def scan (HARTS NUMIRQ : Nat) (s : FU540_PLIC) (hart : Nat) (ignth : Bool) :
    Except Fault Scan :=
  scan_loop HARTS s hart ignth (enabled_irqs HARTS hart) (List.range' 1 NUMIRQ) ⟨none, 0, 0⟩

/-- The method `FU540_PLIC::next_pending_irq`: the loop, then
`return std::make_tuple(hart, level)`. -/
def next_pending_irq (HARTS NUMIRQ : Nat) (s : FU540_PLIC) (hart : Nat) (ignth : Bool) :
    Except Fault (Nat × Option PrivilegeLevel) :=
  match scan HARTS NUMIRQ s hart ignth with
  | .error e => .error e
  | .ok st => .ok (hart, st.level)

/-- The argument `RegisterRange::ReadInfo t`, as far as the handler reads it. -/
structure ReadInfo where
  addr : Nat
  size : Nat

/-- The method `FU540_PLIC::read_hartconf`. -/
def read_hartconf (HARTS NUMIRQ : Nat) (s : FU540_PLIC) (t : ReadInfo) :
    Except Fault FU540_PLIC :=
  if t.addr % 4 ≠ 0 then .error .assertion
  else if t.size ≠ 4 then .error .assertion
  else
    let hart := addr2hart t.addr
    let idx := u32 (t.addr / 4)
    if idx % 2 = 1 then
      match next_pending_irq HARTS NUMIRQ s hart false with
      | .error e => .error e
      | .ok (irq, lvl) =>
        match lvl, hart_context HARTS hart with
        | none, _ => .error .undefined
        | some MachineMode, some conf => .ok (s.store conf.m_mode 1 irq)
        | some SupervisorMode, some conf => .ok (s.store conf.s_mode 1 irq)
        | some MachineMode, none => .error .undefined
        | some SupervisorMode, none => .error .undefined
        | some (other _), _ => .error .assertion
    else .ok s


/-! ## The complete write -/

/-- The entry of hart `k` after `create_hart_regs`, when `len` ranges were
registered before the call. -/
def hart_entry (len k : Nat) : HartConfig :=
  if k = 0 then ⟨len, len⟩ else ⟨len + (2 * k - 1), len + 2 * k⟩

/-- The state in which nothing is pending or enabled and every word is 0. -/
def quiet : FU540_PLIC :=
  { interrupt_priorities := fun _ => 0
    pending_interrupts := fun _ => 0
    regs := fun _ _ => 0 }

/-- The scenario of the spec on a controller with 5 harts: the sources 1
(priority 5) and 2 (priority 7) are pending and enabled for hart 0 in Machine
mode (word 0 of the range at position 2, the `m_mode` view of hart 0 in
`enabled_irqs`), and every threshold is 0. -/
def two_sources : FU540_PLIC :=
  { interrupt_priorities := fun i => if i = 1 then 5 else if i = 2 then 7 else 0
    pending_interrupts := fun i => if i = 0 then 6 else 0
    regs := fun k i => if k = 2 ∧ i = 0 then 6 else 0 }

/-- The masking scenario of the spec on a controller with 5 harts: source 2
(priority 7) is the only pending and enabled source of hart 0, and the
Machine-mode threshold of hart 0 (word 0 of the range at position 11, the
`m_mode` view of hart 0 in `hart_context`) is 7. -/
def at_threshold : FU540_PLIC :=
  { interrupt_priorities := fun i => if i = 2 then 7 else 0
    pending_interrupts := fun i => if i = 0 then 4 else 0
    regs := fun k i => if k = 2 ∧ i = 0 then 4 else if k = 11 ∧ i = 0 then 7 else 0 }

/-- What holds of the locals of `next_pending_irq` throughout the loop: `level` is
unassigned, Machine or Supervisor, and a selected source is pending and was seen
with `level` assigned. -/
def ScanInv (s : FU540_PLIC) (st : Scan) : Prop :=
  (st.level = none ∨ st.level = some MachineMode ∨ st.level = some SupervisorMode) ∧
  (st.selirq ≠ 0 → st.level ≠ none ∧ is_pending s st.selirq = true)

deriving instance DecidableEq for Except

/-! ## The sources the scan considers -/

/-- The threshold test of the loop of `next_pending_irq` on the source `irq`:
passed when `ignth` is set, or when the priority of `irq` is not below the
threshold of the level under which `irq` is enabled. -/
def threshold_test (HARTS : Nat) (s : FU540_PLIC) (hart : Nat) (ignth : Bool)
    (conf : HartConfig) (irq : Nat) : Bool :=
  ignth ||
    match (conf.is_enabled s irq none).2 with
    | some level =>
      match get_threshold HARTS s hart level with
      | .ok thr => !decide (s.interrupt_priorities irq < thr)
      | .error _ => false
    | none => false

/-- The sources the loop of `next_pending_irq` does not skip: enabled for the
hart, pending, passing the threshold test, and of a priority above 0. -/
def candidate (HARTS : Nat) (s : FU540_PLIC) (hart : Nat) (ignth : Bool)
    (conf : HartConfig) (irq : Nat) : Bool :=
  (conf.is_enabled s irq none).1 && is_pending s irq &&
    threshold_test HARTS s hart ignth conf irq && decide (0 < s.interrupt_priorities irq)

/-- The selection after the sources `1 .. a - 1` have been scanned: `sel` is 0 and
none of them is a candidate, or `sel` is the lowest of the candidates of the
highest priority, which is `maxpri`. -/
def Selected (s : FU540_PLIC) (cand : Nat → Bool) (a sel maxpri : Nat) : Prop :=
  (sel = 0 → maxpri = 0 ∧ ∀ c, 1 ≤ c → c < a → cand c = false) ∧
  (sel ≠ 0 → sel < a ∧ cand sel = true ∧ s.interrupt_priorities sel = maxpri ∧
    ∀ c, 1 ≤ c → c < a → cand c = true →
      s.interrupt_priorities c ≤ maxpri ∧ (s.interrupt_priorities c = maxpri → sel ≤ c))

/-- A state of a controller with 5 harts in which hart 1 has source 1 enabled in
Machine mode (word 0 of the range at position 3, its `m_mode` view in
`enabled_irqs`) and source 2 enabled in Supervisor mode (word 0 of the range at
position 4, its `s_mode` view); source 1, of priority 7, is the only pending
source, and every threshold is 0. -/
def two_modes : FU540_PLIC :=
  { interrupt_priorities := fun i => if i = 1 then 7 else 0
    pending_interrupts := fun i => if i = 0 then 2 else 0
    regs := fun k i => if k = 3 ∧ i = 0 then 2 else if k = 4 ∧ i = 0 then 4 else 0 }

/-- One iteration of the loop of `next_pending_irq` with the controller state
passed along: the statements of the body read the registers and assign only the
locals in `Scan`, so the state after the iteration is the state before it, also
when `get_threshold` throws. -/
def scan_body_run (HARTS : Nat) (hart : Nat) (ignth : Bool) (conf : Option HartConfig)
    (irq : Nat) (s : FU540_PLIC) (st : Scan) : FU540_PLIC × Except Fault Scan :=
  (s, scan_body HARTS s hart ignth conf irq st)

/-- The loop of `next_pending_irq` with the controller state passed from one
iteration to the next. -/
def scan_loop_run (HARTS : Nat) (hart : Nat) (ignth : Bool) (conf : Option HartConfig) :
    List Nat → FU540_PLIC → Scan → FU540_PLIC × Except Fault Scan
  | [], s, st => (s, .ok st)
  | irq :: rest, s, st =>
    match scan_body_run HARTS hart ignth conf irq s st with
    | (s2, .error e) => (s2, .error e)
    | (s2, .ok st2) => scan_loop_run HARTS hart ignth conf rest s2 st2

/-- The method `FU540_PLIC::next_pending_irq` with the controller state passed
along: the state after the call, and what the call returns or throws. -/
def next_pending_irq_run (HARTS NUMIRQ : Nat) (s : FU540_PLIC) (hart : Nat) (ignth : Bool) :
    FU540_PLIC × Except Fault (Nat × Option PrivilegeLevel) :=
  match scan_loop_run HARTS hart ignth (enabled_irqs HARTS hart) (List.range' 1 NUMIRQ) s
      ⟨none, 0, 0⟩ with
  | (s2, .error e) => (s2, .error e)
  | (s2, .ok st) => (s2, .ok (hart, st.level))

/-- Two address windows share a byte. -/
def RegisterRange.overlaps (a b : RegisterRange) : Prop :=
  a.start ≤ b.last ∧ b.start ≤ a.last
end FU540

namespace GD32

/-!
# GD32 GPIO: writes to the bit operate register

A shallow embedding of the register side of `GPIO::register_access_callback`
(`vp/src/platform/gd32/gpio.cpp`). The registers are 32-bit words, held as natural
numbers. The pin states kept by the pin server (`server.state.pins`, `pushPin`) are
outside the model: the cases of the switch that only touch them leave the registers
as they are.
-/

/-- Truncation to `uint16_t`. -/
def u16 (n : Nat) : Nat := n % 2 ^ 16

/-- The operator `~` on an `int` holding a 16-bit value, converted to `uint32_t`
by the compound assignment to a 32-bit register. -/
def complement32 (x : Nat) : Nat := 2 ^ 32 - 1 - x

/-- The registers of the port that the callback reads or writes. -/
structure GPIO where
  gpio_ctl0 : Nat
  gpio_ctl1 : Nat
  gpio_octl : Nat
  deriving DecidableEq

/-- The case labels of the switch over `r.addr`, and every other address. -/
inductive RegAddr where
  | GPIO_CTL0_REG_ADDR
  | GPIO_CTL1_REG_ADDR
  | GPIO_BOP_REG_ADDR
  | GPIO_BC_REG_ADDR
  | GPIO_OCTL_REG_ADDR
  | other
  deriving DecidableEq

/-- The argument `vp::map::register_access_t r`, as far as the callback uses it:
`fn` is the access itself, which the callback runs last. -/
structure register_access_t where
  write : Bool
  addr : RegAddr
  nv : Nat
  fn : GPIO → GPIO

/-- One iteration of the loop that collects `output_en`: bit `i` from the two mode
bits of pin `i` in `gpio_ctl0`, bit `i + 8` from those of pin `i + 8` in
`gpio_ctl1`. -/
def output_en_body (g : GPIO) (output_en : Nat) (i : Nat) : Nat :=
  let md_mask := 0b11 <<< (4 * i)
  let output_en := u16 (output_en ||| ((if (g.gpio_ctl0 &&& md_mask) > 0 then 1 else 0) <<< i))
  u16 (output_en ||| ((if (g.gpio_ctl1 &&& md_mask) > 0 then 1 else 0) <<< (i + 8)))

/-- The loop `for (int i = 0; i < 8; i++)` that collects `output_en`, from 0. -/
def output_en (g : GPIO) : Nat :=
  (List.range 8).foldl (output_en_body g) 0

/-- The method `GPIO::register_access_callback`, on the registers. -/
def register_access_callback (g : GPIO) (r : register_access_t) : GPIO :=
  if r.write then
    match r.addr with
    | .GPIO_BOP_REG_ADDR =>
      let set := u16 r.nv
      let clear := u16 (r.nv >>> 16)
      let en := output_en g
      let octl := g.gpio_octl &&& complement32 (clear &&& en)
      let octl := octl ||| (set &&& en)
      r.fn { g with gpio_octl := octl }
    | .GPIO_BC_REG_ADDR =>
      let clear := u16 r.nv
      let en := output_en g
      r.fn { g with gpio_octl := g.gpio_octl &&& complement32 (clear &&& en) }
    | _ => r.fn g
  else r.fn g

/-- A port whose pins 0 and 9 are outputs (mode bits 0b01 in `gpio_ctl0` and
0b11 in `gpio_ctl1`), with the output bits of the pins 0, 1 and 9 set. -/
def port : GPIO :=
  { gpio_ctl0 := 0x1, gpio_ctl1 := 0x30, gpio_octl := 0x203 }

/-- A write of 0x02030201 to the bit operate register: set the pins 0 and 9, clear
the pins 0, 1 and 9; the access itself does not touch the three registers. -/
def bop_write : register_access_t :=
  { write := true, addr := .GPIO_BOP_REG_ADDR, nv := 0x02030201, fn := fun g => g }

end GD32

namespace FU540

open PrivilegeLevel

/-! # Theorems -/

/-! ## The layout built by `create_hart_regs` -/

theorem u64_add_u64 (a b : Nat) : u64 (u64 a + b) = u64 (a + b) := by
  simp [u64, Nat.add_mod]

/-- The loop of `create_hart_regs` from a hart `i ≥ 1` on: `n` harts push `2 * n`
ranges, one stride apart, and fill the entries `i .. i + n - 1` of the map. -/
theorem create_hart_regs_loop_succ (inc : Nat) (n : Nat) :
    ∀ (i addr : Nat) (rr : List RegisterRange) (map : hartmap), 0 < i →
      (create_hart_regs_loop inc n i (addr, rr, map)).2 =
        (rr ++ (List.range (2 * n)).map (fun k => ⟨u64 (addr + k * inc), HART_REG_SIZE⟩),
         fun k => if i ≤ k ∧ k < i + n then
                    some ⟨rr.length + 2 * (k - i), rr.length + 2 * (k - i) + 1⟩
                  else map k) := by
  induction n with
  | zero =>
    intro i addr rr map _
    refine Prod.ext ?_ ?_
    · simp [create_hart_regs_loop]
    · funext k
      have : ¬ (i ≤ k ∧ k < i) := by omega
      simp [create_hart_regs_loop, this]
  | succ n ih =>
    intro i addr rr map hi
    have hne : i ≠ 0 := Nat.pos_iff_ne_zero.mp hi
    simp only [create_hart_regs_loop, create_hart_regs_body, add_reg, hne, ne_eq,
      not_false_eq_true, if_true]
    rw [ih (i + 1) _ _ _ (Nat.succ_pos i)]
    refine Prod.ext ?_ ?_
    · simp only [List.append_assoc, List.length_append, List.length_singleton]
      congr 1
      rw [show 2 * (n + 1) = 2 * n + 1 + 1 by ring, List.range_succ_eq_map,
        List.range_succ_eq_map]
      simp only [List.map_cons, List.map_map, List.singleton_append, List.cons_append,
        List.nil_append, Nat.zero_mul, Nat.add_zero, Nat.zero_add, Nat.one_mul]
      refine congrArg₂ _ rfl (congrArg₂ _ ?_ ?_)
      · simp [u64]
      · apply List.map_congr_left
        intro k _
        simp only [Function.comp, u64_add_u64]
        congr 2
        simp only [Nat.succ_eq_add_one]
        ring
    · funext k
      simp only [hartmap.set, List.length_append, List.length_singleton]
      by_cases h1 : i + 1 ≤ k ∧ k < i + 1 + n
      · have h2 : i ≤ k ∧ k < i + (n + 1) := by omega
        rw [if_pos h1, if_pos h2]
        congr 2 <;> omega
      · rw [if_neg h1]
        by_cases h3 : k = i
        · subst h3
          have h2 : k ≤ k ∧ k < k + (n + 1) := by omega
          rw [if_pos rfl, if_pos h2]
          simp
        · have h2 : ¬ (i ≤ k ∧ k < i + (n + 1)) := by omega
          rw [if_neg h3, if_neg h2]

/-- The result of `create_hart_regs` in closed form. -/
theorem create_hart_regs_eq (HARTS addr inc : Nat) (rr : List RegisterRange) (map : hartmap) :
    create_hart_regs HARTS addr inc rr map =
      (rr ++ (List.range (2 * HARTS - 1)).map
          (fun k => ⟨u64 (addr + k * inc), HART_REG_SIZE⟩),
       fun k => if k < HARTS then some (hart_entry rr.length k) else map k) := by
  cases HARTS with
  | zero =>
    refine Prod.ext ?_ ?_
    · simp [create_hart_regs, create_hart_regs_loop]
    · funext k
      simp [create_hart_regs, create_hart_regs_loop]
  | succ n =>
    simp only [create_hart_regs, create_hart_regs_loop, create_hart_regs_body, add_reg,
      ne_eq, not_true_eq_false, if_false]
    rw [create_hart_regs_loop_succ inc n 1 _ _ _ Nat.one_pos]
    refine Prod.ext ?_ ?_
    · simp only [List.append_assoc, List.length_append, List.length_singleton]
      congr 1
      rw [show 2 * (n + 1) - 1 = 2 * n + 1 by omega, List.range_succ_eq_map]
      simp only [List.map_cons, List.map_map, List.singleton_append, Nat.zero_mul,
        Nat.add_zero]
      refine congrArg₂ _ rfl ?_
      apply List.map_congr_left
      intro k _
      simp only [Function.comp, u64_add_u64, Nat.succ_eq_add_one]
      congr 2
      ring
    · funext k
      simp only [hartmap.set, hart_entry, List.length_append, List.length_singleton]
      by_cases h1 : 1 ≤ k ∧ k < 1 + n
      · have h2 : k < n + 1 := by omega
        have h3 : k ≠ 0 := by omega
        rw [if_pos h1, if_pos h2, if_neg h3]
        congr 2 <;> omega
      · rw [if_neg h1]
        by_cases h3 : k = 0
        · subst h3
          simp
        · have h2 : ¬ k < n + 1 := by omega
          rw [if_neg h3, if_neg h2]

theorem create_registers_eq (HARTS : Nat) :
    create_registers HARTS = .ok (layout HARTS) := by
  simp [layout, create_registers, assert_addr, regs_interrupt_priorities,
    regs_pending_interrupts, RegisterRange.last]

/-- The `HartConfig` of a hart in `enabled_irqs`: the enable ranges follow the
two static ranges. -/
theorem enabled_irqs_eq (HARTS k : Nat) :
    enabled_irqs HARTS k = if k < HARTS then some (hart_entry 2 k) else none := by
  simp [enabled_irqs, layout, create_registers, assert_addr, regs_interrupt_priorities,
    regs_pending_interrupts, RegisterRange.last, create_hart_regs_eq]

/-- The `HartConfig` of a hart in `hart_context`: the context ranges follow the
`2 * HARTS - 1` enable ranges. -/
theorem hart_context_eq (HARTS k : Nat) :
    hart_context HARTS k =
      if k < HARTS then some (hart_entry (2 + (2 * HARTS - 1)) k) else none := by
  have h : 2 * HARTS - 1 + 1 + 1 = 2 + (2 * HARTS - 1) := by omega
  simp [hart_context, layout, create_registers, assert_addr, regs_interrupt_priorities,
    regs_pending_interrupts, RegisterRange.last, create_hart_regs_eq, h]

/-! ## Bits of the bitmaps -/

theorem GET_OFF_eq (irq : Nat) : GET_OFF irq = 2 ^ (irq % 32) := by
  simp [GET_OFF, Nat.one_shiftLeft]

/-- Masking a word with `GET_OFF irq` tests its bit `irq % 32`. -/
theorem and_GET_OFF_ne_zero (w irq : Nat) :
    w &&& GET_OFF irq ≠ 0 ↔ w.testBit (irq % 32) = true := by
  rw [GET_OFF_eq]
  constructor
  · intro h
    by_contra hb
    apply h
    apply Nat.eq_of_testBit_eq
    intro i
    simp only [Nat.testBit_and, Nat.testBit_two_pow, Nat.zero_testBit]
    by_cases hi : irq % 32 = i
    · subst hi
      simp [Bool.eq_false_iff.mpr hb]
    · simp [hi]
  · intro h h0
    have := congrArg (fun n => Nat.testBit n (irq % 32)) h0
    simp [h] at this

/-- Truncation to 32 bits keeps the bits below 32. -/
theorem testBit_u32 (x i : Nat) (h : i < 32) : (u32 x).testBit i = x.testBit i := by
  unfold u32
  rw [Nat.testBit_mod_two_pow]
  simp [h]

theorem is_pending_eq (s : FU540_PLIC) (irq : Nat) :
    is_pending s irq = (s.pending_interrupts (irq / 32)).testBit (irq % 32) := by
  have h := and_GET_OFF_ne_zero (s.pending_interrupts (irq / 32)) irq
  unfold is_pending GET_IDX
  cases hb : (s.pending_interrupts (irq / 32)).testBit (irq % 32)
  · have : ¬ (s.pending_interrupts (irq / 32) &&& GET_OFF irq ≠ 0) := by
      rw [h, hb]; simp
    simpa using this
  · have : s.pending_interrupts (irq / 32) &&& GET_OFF irq ≠ 0 := h.mpr hb
    simpa using this

/-! ## The scan of `next_pending_irq` -/

theorem is_enabled_level (s : FU540_PLIC) (conf : HartConfig) (irq : Nat)
    (level : Option PrivilegeLevel) :
    ((conf.is_enabled s irq level).1 = true →
      (conf.is_enabled s irq level).2 = some MachineMode ∨
      (conf.is_enabled s irq level).2 = some SupervisorMode) ∧
    ((conf.is_enabled s irq level).1 = false → (conf.is_enabled s irq level).2 = level) := by
  unfold HartConfig.is_enabled
  simp only
  split
  · simp
  · split <;> simp

theorem scan_body_inv (HARTS : Nat) (s : FU540_PLIC) (hart : Nat) (ignth : Bool)
    (conf : Option HartConfig) (irq : Nat) (st st2 : Scan) (hinv : ScanInv s st)
    (h : scan_body HARTS s hart ignth conf irq st = .ok st2) : ScanInv s st2 := by
  cases conf with
  | none => simp [scan_body] at h
  | some c =>
    obtain ⟨hen1, hen2⟩ := is_enabled_level s c irq st.level
    simp only [scan_body] at h
    cases he : (c.is_enabled s irq st.level).1
    · -- not enabled: only `level` is rewritten, with its old content
      simp only [he, Bool.not_false, Bool.true_or, if_true, Except.ok.injEq] at h
      subst h
      simp only [ScanInv, hen2 he]
      exact hinv
    · have hl := hen1 he
      cases hp : is_pending s irq
      · simp only [he, hp, Bool.not_true, Bool.not_false, Bool.or_true, if_true,
          Except.ok.injEq] at h
        subst h
        refine ⟨Or.inr hl, fun hsel => ⟨?_, (hinv.2 hsel).2⟩⟩
        rcases hl with hl | hl <;> simp [hl]
      · simp only [he, hp, Bool.not_true, Bool.or_self, Bool.false_eq_true, if_false] at h
        have key : ∀ st3 : Scan,
            (st3 = { st with level := (c.is_enabled s irq st.level).2 } ∨
             st3 = (if s.interrupt_priorities irq > st.maxpri then
                      { level := (c.is_enabled s irq st.level).2,
                        selirq := irq, maxpri := s.interrupt_priorities irq }
                    else { st with level := (c.is_enabled s irq st.level).2 })) →
            ScanInv s st3 := by
          intro st3 h3
          have hbase : ScanInv s { st with level := (c.is_enabled s irq st.level).2 } := by
            refine ⟨Or.inr hl, fun hsel => ⟨?_, (hinv.2 hsel).2⟩⟩
            rcases hl with hl | hl <;> simp [hl]
          rcases h3 with h3 | h3
          · rw [h3]; exact hbase
          · rw [h3]
            split
            · refine ⟨Or.inr hl, fun _ => ⟨?_, hp⟩⟩
              rcases hl with hl | hl <;> simp [hl]
            · exact hbase
        cases ignth with
        | true =>
          simp only [if_true, Except.ok.injEq] at h
          exact key st2 (Or.inr h.symm)
        | false =>
          simp only [Bool.false_eq_true, if_false] at h
          rcases hl with hl | hl
          · simp only [hl] at h
            cases hg : get_threshold HARTS s hart MachineMode with
            | error e => simp [hg] at h
            | ok thr =>
              simp only [hg] at h
              split at h
              · simp only [Except.ok.injEq] at h
                exact key st2 (Or.inl (by rw [← h, hl]))
              · simp only [Except.ok.injEq] at h
                exact key st2 (Or.inr (by rw [← h, hl]))
          · simp only [hl] at h
            cases hg : get_threshold HARTS s hart SupervisorMode with
            | error e => simp [hg] at h
            | ok thr =>
              simp only [hg] at h
              split at h
              · simp only [Except.ok.injEq] at h
                exact key st2 (Or.inl (by rw [← h, hl]))
              · simp only [Except.ok.injEq] at h
                exact key st2 (Or.inr (by rw [← h, hl]))

theorem scan_loop_inv (HARTS : Nat) (s : FU540_PLIC) (hart : Nat) (ignth : Bool)
    (conf : Option HartConfig) (irqs : List Nat) :
    ∀ st st2 : Scan, ScanInv s st →
      scan_loop HARTS s hart ignth conf irqs st = .ok st2 → ScanInv s st2 := by
  induction irqs with
  | nil =>
    intro st st2 hinv h
    simp only [scan_loop, Except.ok.injEq] at h
    exact h ▸ hinv
  | cons irq rest ih =>
    intro st st2 hinv h
    simp only [scan_loop] at h
    cases hb : scan_body HARTS s hart ignth conf irq st with
    | error e => simp [hb] at h
    | ok st1 =>
      simp only [hb] at h
      exact ih st1 st2 (scan_body_inv HARTS s hart ignth conf irq st st1 hinv hb) h

theorem scan_inv (HARTS NUMIRQ : Nat) (s : FU540_PLIC) (hart : Nat) (ignth : Bool)
    (st : Scan) (h : scan HARTS NUMIRQ s hart ignth = .ok st) : ScanInv s st := by
  refine scan_loop_inv HARTS s hart ignth _ _ ⟨none, 0, 0⟩ st ?_ h
  exact ⟨Or.inl rfl, fun h0 => absurd rfl h0⟩

/-! ## Arbitration and the claim read -/

/-- C1 (the code does not do this): in the scenario of the spec, sources 1
(priority 5) and 2 (priority 7) pending and enabled for hart 0 in Machine mode
with threshold 0, the loop of `next_pending_irq` selects source 2, but the
function returns its argument `hart` as the id, so that the claim read stores and
yields 0, not 2. -/
theorem C1_claim_read_yields_hart_id :
    is_pending two_sources 1 = true ∧ is_pending two_sources 2 = true ∧
    enabled_irqs 5 0 = some ⟨2, 2⟩ ∧
    HartConfig.is_enabled two_sources ⟨2, 2⟩ 1 none = (true, some MachineMode) ∧
    HartConfig.is_enabled two_sources ⟨2, 2⟩ 2 none = (true, some MachineMode) ∧
    two_sources.interrupt_priorities 1 = 5 ∧ two_sources.interrupt_priorities 2 = 7 ∧
    get_threshold 5 two_sources 0 MachineMode = .ok 0 ∧
    scan 5 53 two_sources 0 false = .ok ⟨some MachineMode, 2, 7⟩ ∧
    next_pending_irq 5 53 two_sources 0 false = .ok (0, some MachineMode) ∧
    hart_context 5 0 = some ⟨11, 11⟩ ∧
    ∃ s2, read_hartconf 5 53 two_sources ⟨0x200004, 4⟩ = .ok s2 ∧ s2.regs 11 1 = 0 := by
  refine ⟨by decide, by decide, by decide, by decide, by decide, by decide, by decide,
    by decide, by decide, by decide, by decide, _, rfl, by decide⟩

/-- C2 (the code does not do this): with threshold 7 for hart 0 in Machine mode
and source 2, of priority 7, the only pending and enabled source, the loop of
`next_pending_irq` does select source 2: it skips a source only when its priority
is below the threshold, not when it equals it. -/
theorem C2_priority_equal_to_threshold_selected :
    is_pending at_threshold 2 = true ∧
    HartConfig.is_enabled at_threshold ⟨2, 2⟩ 2 none = (true, some MachineMode) ∧
    at_threshold.interrupt_priorities 2 = 7 ∧
    get_threshold 5 at_threshold 0 MachineMode = .ok 7 ∧
    scan 5 53 at_threshold 0 false = .ok ⟨some MachineMode, 2, 7⟩ := by
  refine ⟨by decide, by decide, by decide, by decide, by decide⟩

/-- C3 as stated fails: in the scenario of the spec the claim read on hart 0
selects source 2, and after the read source 2 is still pending and the claim word
of the Machine context of hart 0 holds 0, not 2. -/
theorem C3_claim_read_counterexample :
    scan 5 53 two_sources (addr2hart 0x200004) false = .ok ⟨some MachineMode, 2, 7⟩ ∧
    hart_context 5 (addr2hart 0x200004) = some ⟨11, 11⟩ ∧
    ∃ s2, read_hartconf 5 53 two_sources ⟨0x200004, 4⟩ = .ok s2 ∧
      is_pending s2 2 = true ∧ s2.regs 11 1 = 0 := by
  refine ⟨by decide, by decide, _, rfl, by decide, by decide⟩

/-- C3 (amended): when the loop of `next_pending_irq` selects a source for the
hart of a claim read (a 4-byte aligned read of an odd word), the read returns; it
leaves the pending bitmap as it was, so the selected source stays pending; and the
claim word of the context block of the level that `next_pending_irq` returned
holds the id that `next_pending_irq` returned. -/
theorem C3_claim_read_records_returned_id (HARTS NUMIRQ : Nat) (s : FU540_PLIC)
    (t : ReadInfo) (st : Scan) (hH : 0 < HARTS) (ha : t.addr % 4 = 0) (hsz : t.size = 4)
    (hodd : u32 (t.addr / 4) % 2 = 1)
    (hscan : scan HARTS NUMIRQ s (addr2hart t.addr) false = .ok st)
    (hsel : st.selirq ≠ 0) :
    ∃ s2 irq lvl conf,
      read_hartconf HARTS NUMIRQ s t = .ok s2 ∧
      next_pending_irq HARTS NUMIRQ s (addr2hart t.addr) false = .ok (irq, some lvl) ∧
      hart_context HARTS (addr2hart t.addr) = some conf ∧
      s2.pending_interrupts = s.pending_interrupts ∧
      is_pending s2 st.selirq = true ∧
      ((lvl = MachineMode ∧ s2.regs conf.m_mode 1 = u32 irq) ∨
       (lvl = SupervisorMode ∧ s2.regs conf.s_mode 1 = u32 irq)) := by
  obtain ⟨hlvl, hp⟩ := scan_inv HARTS NUMIRQ s _ false st hscan
  obtain ⟨hne, hpend⟩ := hp hsel
  have hctx : hart_context HARTS (addr2hart t.addr) =
      some (hart_entry (2 + (2 * HARTS - 1)) 0) := by
    rw [hart_context_eq]
    simp [addr2hart, hH]
  have hnp : next_pending_irq HARTS NUMIRQ s (addr2hart t.addr) false =
      .ok (addr2hart t.addr, st.level) := by
    simp [next_pending_irq, hscan]
  rcases hlvl with hl | hl | hl
  · exact absurd hl hne
  · refine ⟨s.store (hart_entry (2 + (2 * HARTS - 1)) 0).m_mode 1 (addr2hart t.addr),
      addr2hart t.addr, MachineMode, _, ?_, by rw [hnp, hl], hctx, rfl, ?_, Or.inl ⟨rfl, ?_⟩⟩
    · simp [read_hartconf, ha, hsz, hodd, hnp, hl, hctx]
    · simpa [is_pending, FU540_PLIC.store] using hpend
    · simp [FU540_PLIC.store]
  · refine ⟨s.store (hart_entry (2 + (2 * HARTS - 1)) 0).s_mode 1 (addr2hart t.addr),
      addr2hart t.addr, SupervisorMode, _, ?_, by rw [hnp, hl], hctx, rfl, ?_, Or.inr ⟨rfl, ?_⟩⟩
    · simp [read_hartconf, ha, hsz, hodd, hnp, hl, hctx]
    · simpa [is_pending, FU540_PLIC.store] using hpend
    · simp [FU540_PLIC.store]

/-- C3 (amended) at the scenario of the spec. -/
theorem C3_claim_read_records_returned_id_witness :
    ∃ s2 irq lvl conf,
      read_hartconf 5 53 two_sources ⟨0x200004, 4⟩ = .ok s2 ∧
      next_pending_irq 5 53 two_sources (addr2hart 0x200004) false = .ok (irq, some lvl) ∧
      hart_context 5 (addr2hart 0x200004) = some conf ∧
      s2.pending_interrupts = two_sources.pending_interrupts ∧
      is_pending s2 2 = true ∧
      ((lvl = MachineMode ∧ s2.regs conf.m_mode 1 = u32 irq) ∨
       (lvl = SupervisorMode ∧ s2.regs conf.s_mode 1 = u32 irq)) :=
  C3_claim_read_records_returned_id 5 53 two_sources ⟨0x200004, 4⟩ ⟨some MachineMode, 2, 7⟩
    (by decide) (by decide) (by decide) (by decide) (by decide) (by decide)

/-! ## The gateway -/

/-- C4 (the code does not do this): `gateway_trigger_interrupt(0)` does not fail;
it returns and sets bit 0 of the pending bitmap. Only an id above `NUMIRQ` is
rejected (here 54 with `NUMIRQ = 53`). -/
theorem C4_trigger_of_source_zero_accepted :
    is_pending quiet 0 = false ∧
    gateway_trigger_interrupt 53 quiet 54 = .error (.invalid_argument .irq_value_is_invalid) ∧
    ∃ s2, gateway_trigger_interrupt 53 quiet 0 = .ok s2 ∧
      is_pending s2 0 = true ∧ s2.pending_interrupts 0 = 1 := by
  refine ⟨by decide, rfl, _, rfl, by decide, by decide⟩

/-! ## Address decoding -/

/-- C5 (the code does not do this): on a controller with 5 harts the Machine
context block of hart 1 is the range at 0x201000, and `addr2hart` returns 0 for
that address, not 1. -/
theorem C5_addr2hart_returns_zero :
    hart_context 5 1 = some ⟨12, 13⟩ ∧
    (layout 5).register_ranges[12]? = some ⟨CONTEXT_BASE + 1 * CONTEXT_PER_HART, 8⟩ ∧
    CONTEXT_BASE + 1 * CONTEXT_PER_HART = 0x201000 ∧
    addr2hart 0x201000 = 0 := by
  refine ⟨by decide, by decide, by decide, by decide⟩

/-- C6 (the code does not do this): with nothing pending or enabled,
`next_pending_irq(1, ignth)` returns the id 1 (its argument `hart`) and a level
that was never assigned. -/
theorem C6_no_interrupt_result :
    next_pending_irq 5 53 quiet 1 false = .ok (1, none) ∧
    next_pending_irq 5 53 quiet 1 true = .ok (1, none) ∧
    scan 5 53 quiet 1 false = .ok ⟨none, 0, 0⟩ := by
  refine ⟨by decide, by decide, by decide⟩

/-! ## The layout of the hart registers -/

/-- C7: `create_hart_regs(base, stride, map)` appends to `register_ranges` exactly
`2 * HARTS - 1` ranges of 8 bytes, the `k`-th at `base + k * stride` (in `uint64_t`
arithmetic); hart 0 gets the first one as both its `m_mode` and its `s_mode`
view, and a hart `i` in `[1, HARTS)` gets the range at `base + (2i-1) * stride` as
`m_mode` and the next one, at `base + 2i * stride`, as `s_mode`, so that its
Machine unit follows the last unit of hart `i - 1`. -/
theorem C7_create_hart_regs_layout (HARTS base stride : Nat) (rr : List RegisterRange)
    (map : hartmap) :
    (create_hart_regs HARTS base stride rr map).1 =
      rr ++ (List.range (2 * HARTS - 1)).map (fun k => ⟨u64 (base + k * stride), 8⟩) ∧
    (create_hart_regs HARTS base stride rr map).1.length = rr.length + (2 * HARTS - 1) ∧
    (0 < HARTS →
      (create_hart_regs HARTS base stride rr map).2 0 = some ⟨rr.length, rr.length⟩ ∧
      (create_hart_regs HARTS base stride rr map).1[rr.length]? = some ⟨u64 base, 8⟩) ∧
    (∀ i, 1 ≤ i → i < HARTS →
      (create_hart_regs HARTS base stride rr map).2 i =
        some ⟨rr.length + (2 * i - 1), rr.length + 2 * i⟩ ∧
      (create_hart_regs HARTS base stride rr map).1[rr.length + (2 * i - 1)]? =
        some ⟨u64 (base + (2 * i - 1) * stride), 8⟩ ∧
      (create_hart_regs HARTS base stride rr map).1[rr.length + 2 * i]? =
        some ⟨u64 (base + 2 * i * stride), 8⟩) ∧
    (∀ i, HARTS ≤ i → (create_hart_regs HARTS base stride rr map).2 i = map i) := by
  have hget : ∀ k, k < 2 * HARTS - 1 →
      (rr ++ (List.range (2 * HARTS - 1)).map
        (fun k => (⟨u64 (base + k * stride), 8⟩ : RegisterRange)))[rr.length + k]? =
        some ⟨u64 (base + k * stride), 8⟩ := by
    intro k hk
    rw [List.getElem?_append_right (Nat.le_add_right _ _), Nat.add_sub_cancel_left,
      List.getElem?_map, List.getElem?_range hk]
    rfl
  have hsz : HART_REG_SIZE = 8 := rfl
  rw [create_hart_regs_eq, hsz]
  refine ⟨rfl, by simp, ?_, ?_, ?_⟩
  · intro h0
    refine ⟨by simp [h0, hart_entry], ?_⟩
    have := hget 0 (by omega)
    simpa using this
  · intro i h1 h2
    have hi : i ≠ 0 := by omega
    refine ⟨by simp [h2, hart_entry, hi], hget (2 * i - 1) (by omega), hget (2 * i) (by omega)⟩
  · intro i hi
    have : ¬ i < HARTS := by omega
    simp [this]

/-- C7 on the context blocks of the FU540 (5 harts, no range registered before). -/
theorem C7_create_hart_regs_layout_witness :
    (create_hart_regs 5 CONTEXT_BASE CONTEXT_PER_HART [] (fun _ => none)).1.map
        (fun r => (r.start, r.size)) =
      [(0x200000, 8), (0x201000, 8), (0x202000, 8), (0x203000, 8), (0x204000, 8),
       (0x205000, 8), (0x206000, 8), (0x207000, 8), (0x208000, 8)] ∧
    (create_hart_regs 5 CONTEXT_BASE CONTEXT_PER_HART [] (fun _ => none)).2 0 = some ⟨0, 0⟩ ∧
    (create_hart_regs 5 CONTEXT_BASE CONTEXT_PER_HART [] (fun _ => none)).2 3 = some ⟨5, 6⟩ ∧
    (create_hart_regs 5 CONTEXT_BASE CONTEXT_PER_HART [] (fun _ => none)).1[5]? =
      some ⟨0x205000, 8⟩ :=
  have h := C7_create_hart_regs_layout 5 CONTEXT_BASE CONTEXT_PER_HART [] (fun _ => none)
  ⟨by rw [h.1]; decide, (h.2.2.1 (by decide)).1, (h.2.2.2.1 3 (by decide) (by decide)).1,
    (h.2.2.2.1 3 (by decide) (by decide)).2.1⟩

/-! ## Thresholds -/

/-- C8: `get_threshold(hart, level)` throws `invalid_argument` exactly when
`hart` is 0 and `level` is Supervisor, or `level` is neither Machine nor
Supervisor; for every other level of a hart below `HARTS` it returns word 0 of the
hart's context block of that level: `m_mode[0]` for Machine, `s_mode[0]` for
Supervisor. -/
theorem C8_get_threshold (HARTS : Nat) (s : FU540_PLIC) (hart : Nat)
    (level : PrivilegeLevel) :
    ((∃ what, get_threshold HARTS s hart level = .error (.invalid_argument what)) ↔
      ((hart = 0 ∧ level = SupervisorMode) ∨
       (level ≠ MachineMode ∧ level ≠ SupervisorMode))) ∧
    (hart < HARTS → ¬ (hart = 0 ∧ level = SupervisorMode) →
      ∃ conf, hart_context HARTS hart = some conf ∧
        (level = MachineMode → get_threshold HARTS s hart level = .ok (s.regs conf.m_mode 0)) ∧
        (level = SupervisorMode →
          get_threshold HARTS s hart level = .ok (s.regs conf.s_mode 0))) := by
  constructor
  · by_cases h0 : hart = 0 ∧ level = SupervisorMode
    · simp [get_threshold, h0]
    · cases level with
      | MachineMode =>
        cases hc : hart_context HARTS hart <;> simp [get_threshold, hc]
      | SupervisorMode =>
        have h0b : hart ≠ 0 := by simpa using h0
        cases hc : hart_context HARTS hart <;> simp [get_threshold, hc, h0b]
      | other c => simp [get_threshold]
  · intro hh h0
    refine ⟨hart_entry (2 + (2 * HARTS - 1)) hart, by simp [hart_context_eq, hh], ?_, ?_⟩
    · intro hl
      subst hl
      simp [get_threshold, hart_context_eq, hh]
    · intro hl
      subst hl
      have h0b : hart ≠ 0 := by simpa using h0
      simp [get_threshold, hart_context_eq, hh, h0b]

/-- C8 on hart 0 and on hart 1 of a controller with 5 harts. -/
theorem C8_get_threshold_witness :
    ((∃ what, get_threshold 5 at_threshold 0 SupervisorMode =
        .error (.invalid_argument what)) ↔
      ((0 = 0 ∧ SupervisorMode = SupervisorMode) ∨
       (SupervisorMode ≠ MachineMode ∧ SupervisorMode ≠ SupervisorMode))) ∧
    (∃ conf, hart_context 5 0 = some conf ∧
        (MachineMode = MachineMode →
          get_threshold 5 at_threshold 0 MachineMode = .ok (at_threshold.regs conf.m_mode 0)) ∧
        (MachineMode = SupervisorMode →
          get_threshold 5 at_threshold 0 MachineMode = .ok (at_threshold.regs conf.s_mode 0))) ∧
    get_threshold 5 at_threshold 0 MachineMode = .ok 7 :=
  ⟨(C8_get_threshold 5 at_threshold 0 SupervisorMode).1,
   (C8_get_threshold 5 at_threshold 0 MachineMode).2 (by decide) (by decide), by decide⟩

/-! ## Triggering a source -/

/-- C9: for every `irq` not above `NUMIRQ`, so for every `irq` in `[1, NUMIRQ]`,
`gateway_trigger_interrupt(irq)` returns; afterwards `irq` is pending, every other
source is pending exactly when it was before, and the priorities and all hart
registers (enable bitmaps and context words) are as before. -/
theorem C9_trigger_sets_pending (NUMIRQ : Nat) (s : FU540_PLIC) (irq : Nat)
    (h : irq ≤ NUMIRQ) :
    ∃ s2, gateway_trigger_interrupt NUMIRQ s irq = .ok s2 ∧
      is_pending s2 irq = true ∧
      (∀ j, j ≠ irq → is_pending s2 j = is_pending s j) ∧
      s2.interrupt_priorities = s.interrupt_priorities ∧
      s2.regs = s.regs := by
  have hle : ¬ irq > NUMIRQ := by omega
  simp only [gateway_trigger_interrupt, hle, if_false]
  refine ⟨_, rfl, ?_, ?_, rfl, rfl⟩
  · have h32 : irq % 32 < 32 := Nat.mod_lt _ (by decide)
    simp [is_pending_eq, GET_IDX, GET_OFF_eq, testBit_u32 _ _ h32, Nat.testBit_two_pow]
  · intro j hj
    rw [is_pending_eq, is_pending_eq]
    simp only [GET_IDX]
    by_cases hw : j / 32 = irq / 32
    · have hb : irq % 32 ≠ j % 32 := by omega
      have h32 : j % 32 < 32 := Nat.mod_lt _ (by decide)
      simp [hw, GET_OFF_eq, testBit_u32 _ _ h32, Nat.testBit_two_pow, hb]
    · simp [hw]

/-- C9 on source 2 of the quiet controller with 53 sources. -/
theorem C9_trigger_sets_pending_witness :
    ∃ s2, gateway_trigger_interrupt 53 quiet 2 = .ok s2 ∧
      is_pending s2 2 = true ∧
      (∀ j, j ≠ 2 → is_pending s2 j = is_pending quiet j) ∧
      s2.interrupt_priorities = quiet.interrupt_priorities ∧
      s2.regs = quiet.regs :=
  C9_trigger_sets_pending 53 quiet 2 (by decide)

/-! ## Claim and complete -/

theorem scan_loop_no_config (HARTS : Nat) (s : FU540_PLIC) (hart : Nat) (ignth : Bool)
    (irqs : List Nat) (st st2 : Scan)
    (h : scan_loop HARTS s hart ignth none irqs st = .ok st2) : st2 = st := by
  cases irqs with
  | nil => simpa [scan_loop] using h.symm
  | cons irq rest => simp [scan_loop, scan_body] at h

/-- A `HartConfig` whose two views are the same range never reports Supervisor. -/
theorem is_enabled_shared_view (s : FU540_PLIC) (conf : HartConfig) (irq : Nat)
    (level : Option PrivilegeLevel) (hc : conf.m_mode = conf.s_mode)
    (hl : level ≠ some SupervisorMode) :
    (conf.is_enabled s irq level).2 ≠ some SupervisorMode := by
  unfold HartConfig.is_enabled
  simp only [← hc]
  split
  · simp
  · exact hl

theorem scan_body_shared_view (HARTS : Nat) (s : FU540_PLIC) (hart : Nat) (ignth : Bool)
    (conf : HartConfig) (irq : Nat) (st st2 : Scan) (hc : conf.m_mode = conf.s_mode)
    (hl : st.level ≠ some SupervisorMode)
    (h : scan_body HARTS s hart ignth (some conf) irq st = .ok st2) :
    st2.level ≠ some SupervisorMode := by
  have hen := is_enabled_shared_view s conf irq st.level hc hl
  simp only [scan_body] at h
  split at h
  · simp only [Except.ok.injEq] at h
    rw [← h]; exact hen
  · have hpick : ∀ st3 : Scan,
        st3 = (if s.interrupt_priorities irq > st.maxpri then
                { level := (conf.is_enabled s irq st.level).2,
                  selirq := irq, maxpri := s.interrupt_priorities irq }
               else { st with level := (conf.is_enabled s irq st.level).2 }) →
        st3.level ≠ some SupervisorMode := by
      intro st3 h3
      rw [h3]
      split <;> exact hen
    split at h
    · simp only [Except.ok.injEq] at h
      exact hpick st2 h.symm
    · split at h
      · simp at h
      · split at h
        · simp at h
        · split at h
          · simp only [Except.ok.injEq] at h
            rw [← h]; exact hen
          · simp only [Except.ok.injEq] at h
            exact hpick st2 h.symm

theorem scan_loop_shared_view (HARTS : Nat) (s : FU540_PLIC) (hart : Nat) (ignth : Bool)
    (conf : HartConfig) (hc : conf.m_mode = conf.s_mode) (irqs : List Nat) :
    ∀ st st2 : Scan, st.level ≠ some SupervisorMode →
      scan_loop HARTS s hart ignth (some conf) irqs st = .ok st2 →
      st2.level ≠ some SupervisorMode := by
  induction irqs with
  | nil =>
    intro st st2 hl h
    simp only [scan_loop, Except.ok.injEq] at h
    exact h ▸ hl
  | cons irq rest ih =>
    intro st st2 hl h
    simp only [scan_loop] at h
    cases hb : scan_body HARTS s hart ignth (some conf) irq st with
    | error e => simp [hb] at h
    | ok st1 =>
      simp only [hb] at h
      exact ih st1 st2 (scan_body_shared_view HARTS s hart ignth conf irq st st1 hc hl hb) h

/-- The level that `next_pending_irq` returns for hart 0, when it returns one, is
Machine, and then the controller has a hart 0. -/
theorem next_pending_irq_hart0_level (HARTS NUMIRQ : Nat) (s : FU540_PLIC) (ignth : Bool)
    (irq : Nat) (lvl : PrivilegeLevel)
    (h : next_pending_irq HARTS NUMIRQ s 0 ignth = .ok (irq, some lvl)) :
    lvl = MachineMode ∧ 0 < HARTS ∧ irq = 0 := by
  unfold next_pending_irq at h
  cases hs : scan HARTS NUMIRQ s 0 ignth with
  | error e => simp [hs] at h
  | ok st =>
    simp only [hs, Except.ok.injEq, Prod.mk.injEq] at h
    obtain ⟨hirq, hlv⟩ := h
    have hinv := scan_inv HARTS NUMIRQ s 0 ignth st hs
    by_cases hH : 0 < HARTS
    · have hconf : enabled_irqs HARTS 0 = some (hart_entry 2 0) := by
        simp [enabled_irqs_eq, hH]
      have hS : st.level ≠ some SupervisorMode := by
        unfold scan at hs
        rw [hconf] at hs
        exact scan_loop_shared_view HARTS s 0 ignth _ rfl _ ⟨none, 0, 0⟩ st (by simp) hs
      refine ⟨?_, hH, hirq.symm⟩
      rcases hinv.1 with hl | hl | hl
      · rw [hl] at hlv; cases hlv
      · rw [hl] at hlv; cases hlv; rfl
      · exact absurd hl hS
    · have hconf : enabled_irqs HARTS 0 = none := by
        simp [enabled_irqs_eq, hH]
      unfold scan at hs
      rw [hconf] at hs
      have := scan_loop_no_config HARTS s 0 ignth _ _ _ hs
      rw [this] at hlv
      cases hlv

/-- Whether `is_enabled` reports a source as enabled does not depend on the
content of `*level` before the call. -/
theorem is_enabled_fst (s : FU540_PLIC) (conf : HartConfig) (irq : Nat)
    (level : Option PrivilegeLevel) :
    (conf.is_enabled s irq level).1 = (conf.is_enabled s irq none).1 := by
  unfold HartConfig.is_enabled
  simp only
  split
  · rfl
  · split <;> rfl

/-- The level `is_enabled` reports for an enabled source does not depend on the
content of `*level` before the call. -/
theorem is_enabled_snd (s : FU540_PLIC) (conf : HartConfig) (irq : Nat)
    (level : Option PrivilegeLevel) (h : (conf.is_enabled s irq none).1 = true) :
    (conf.is_enabled s irq level).2 = (conf.is_enabled s irq none).2 := by
  unfold HartConfig.is_enabled at h ⊢
  simp only at h ⊢
  split
  · rfl
  · split
    · rfl
    · rename_i h1 h2
      simp [h1, h2] at h

/-- One iteration of the loop replaces the selection exactly when the source is a
candidate of a priority above `maxpri`. -/
theorem scan_body_selects (HARTS : Nat) (s : FU540_PLIC) (hart : Nat) (ignth : Bool)
    (conf : HartConfig) (irq : Nat) (st st2 : Scan)
    (h : scan_body HARTS s hart ignth (some conf) irq st = .ok st2) :
    (candidate HARTS s hart ignth conf irq = true ∧ s.interrupt_priorities irq > st.maxpri →
      st2.selirq = irq ∧ st2.maxpri = s.interrupt_priorities irq) ∧
    (¬ (candidate HARTS s hart ignth conf irq = true ∧ s.interrupt_priorities irq > st.maxpri) →
      st2.selirq = st.selirq ∧ st2.maxpri = st.maxpri) := by
  simp only [scan_body, is_enabled_fst s conf irq st.level] at h
  unfold candidate threshold_test
  cases he : (conf.is_enabled s irq none).1
  · simp only [he, Bool.not_false, Bool.true_or, if_true, Except.ok.injEq] at h
    subst h
    simp
  · rw [is_enabled_snd s conf irq st.level he] at h
    cases hp : is_pending s irq
    · simp only [he, hp, Bool.not_true, Bool.not_false, Bool.or_true, if_true,
        Except.ok.injEq] at h
      subst h
      simp
    · simp only [he, hp, Bool.not_true, Bool.or_self, Bool.false_eq_true, if_false] at h
      cases ignth with
      | true =>
        simp only [if_true, Except.ok.injEq] at h
        subst h
        by_cases hgt : s.interrupt_priorities irq > st.maxpri
        · have hpos : 0 < s.interrupt_priorities irq := by omega
          simp [hgt, hpos]
        · simp [hgt]
      | false =>
        simp only [Bool.false_eq_true, if_false] at h
        cases hl : (conf.is_enabled s irq none).2 with
        | none => simp [hl] at h
        | some level =>
          simp only [hl] at h
          cases hg : get_threshold HARTS s hart level with
          | error e => simp [hg] at h
          | ok thr =>
            simp only [hg] at h
            by_cases hlt : s.interrupt_priorities irq < thr
            · simp only [hlt, if_true, Except.ok.injEq] at h
              subst h
              simp [hlt, hg]
            · simp only [hlt, if_false, Except.ok.injEq] at h
              subst h
              by_cases hgt : s.interrupt_priorities irq > st.maxpri
              · have hpos : 0 < s.interrupt_priorities irq := by omega
                simp [hgt, hpos, hlt, hg]
              · simp [hgt]

/-- One iteration of the loop extends the selection by the source it scans. -/
theorem scan_body_selected (HARTS : Nat) (s : FU540_PLIC) (hart : Nat) (ignth : Bool)
    (conf : HartConfig) (a : Nat) (st st2 : Scan) (ha : 1 ≤ a)
    (hsel : Selected s (candidate HARTS s hart ignth conf) a st.selirq st.maxpri)
    (h : scan_body HARTS s hart ignth (some conf) a st = .ok st2) :
    Selected s (candidate HARTS s hart ignth conf) (a + 1) st2.selirq st2.maxpri := by
  obtain ⟨hyes, hno⟩ := scan_body_selects HARTS s hart ignth conf a st st2 h
  obtain ⟨h0, h1⟩ := hsel
  by_cases hpick : candidate HARTS s hart ignth conf a = true ∧
      s.interrupt_priorities a > st.maxpri
  · obtain ⟨e1, e2⟩ := hyes hpick
    rw [e1, e2]
    refine ⟨fun h => by omega, fun _ => ⟨by omega, hpick.1, rfl, ?_⟩⟩
    intro c hc1 hc2 hc
    by_cases hca : c = a
    · subst hca
      exact ⟨le_refl _, fun _ => le_refl _⟩
    · have hlt : c < a := by omega
      by_cases hs0 : st.selirq = 0
      · have := (h0 hs0).2 c hc1 hlt
        rw [this] at hc
        cases hc
      · have := (h1 hs0).2.2.2 c hc1 hlt hc
        exact ⟨by omega, fun e => by omega⟩
  · obtain ⟨e1, e2⟩ := hno hpick
    rw [e1, e2]
    constructor
    · intro hs0
      refine ⟨(h0 hs0).1, ?_⟩
      intro c hc1 hc2
      by_cases hca : c = a
      · subst hca
        by_contra hcand
        have hcand2 : candidate HARTS s hart ignth conf c = true := by simpa using hcand
        have hpos : 0 < s.interrupt_priorities c := by
          unfold candidate at hcand2
          simp only [Bool.and_eq_true, decide_eq_true_eq] at hcand2
          exact hcand2.2
        exact hpick ⟨hcand2, by rw [(h0 hs0).1]; exact hpos⟩
      · exact (h0 hs0).2 c hc1 (by omega)
    · intro hs0
      obtain ⟨g1, g2, g3, g4⟩ := h1 hs0
      refine ⟨by omega, g2, g3, ?_⟩
      intro c hc1 hc2 hc
      by_cases hca : c = a
      · subst hca
        have hle : s.interrupt_priorities c ≤ st.maxpri := by
          by_contra hgt
          exact hpick ⟨hc, by omega⟩
        exact ⟨hle, fun _ => by omega⟩
      · exact g4 c hc1 (by omega) hc

/-- The loop over the sources `a .. a + n - 1` extends the selection by them. -/
theorem scan_loop_selected (HARTS : Nat) (s : FU540_PLIC) (hart : Nat) (ignth : Bool)
    (conf : HartConfig) (n : Nat) :
    ∀ (a : Nat) (st st2 : Scan), 1 ≤ a →
      Selected s (candidate HARTS s hart ignth conf) a st.selirq st.maxpri →
      scan_loop HARTS s hart ignth (some conf) (List.range' a n) st = .ok st2 →
      Selected s (candidate HARTS s hart ignth conf) (a + n) st2.selirq st2.maxpri := by
  induction n with
  | zero =>
    intro a st st2 _ hsel h
    simp only [List.range'_zero, scan_loop, Except.ok.injEq] at h
    subst h
    simpa using hsel
  | succ n ih =>
    intro a st st2 ha hsel h
    simp only [List.range'_succ, scan_loop] at h
    cases hb : scan_body HARTS s hart ignth (some conf) a st with
    | error e => simp [hb] at h
    | ok st1 =>
      simp only [hb] at h
      have := ih (a + 1) st1 st2 (by omega)
        (scan_body_selected HARTS s hart ignth conf a st st1 ha hsel hb) h
      rw [show a + (n + 1) = a + 1 + n by omega]
      exact this

/-- An enabled source of a `HartConfig` whose views share one range is reported
as Machine. -/
theorem is_enabled_shared_true (s : FU540_PLIC) (conf : HartConfig) (irq : Nat)
    (level : Option PrivilegeLevel) (hc : conf.m_mode = conf.s_mode)
    (h : (conf.is_enabled s irq level).1 = true) :
    (conf.is_enabled s irq level).2 = some MachineMode := by
  unfold HartConfig.is_enabled at h ⊢
  simp only [← hc] at h ⊢
  split
  · rfl
  · rename_i h1
    simp [h1] at h

/-- On a hart of the controller, the threshold of the level that `is_enabled`
reports for an enabled source can be read. -/
theorem get_threshold_of_enabled (HARTS : Nat) (s : FU540_PLIC) (hart irq : Nat)
    (level : Option PrivilegeLevel) (hh : hart < HARTS)
    (h : ((hart_entry 2 hart).is_enabled s irq level).1 = true) :
    ∃ lvl thr, ((hart_entry 2 hart).is_enabled s irq level).2 = some lvl ∧
      get_threshold HARTS s hart lvl = .ok thr := by
  by_cases h0 : hart = 0
  · subst h0
    have hm := is_enabled_shared_true s (hart_entry 2 0) irq level rfl h
    refine ⟨MachineMode, s.regs (hart_entry (2 + (2 * HARTS - 1)) 0).m_mode 0, hm, ?_⟩
    simp [get_threshold, hart_context_eq, hh]
  · rcases (is_enabled_level s (hart_entry 2 hart) irq level).1 h with hl | hl
    · refine ⟨MachineMode, s.regs (hart_entry (2 + (2 * HARTS - 1)) hart).m_mode 0, hl, ?_⟩
      simp [get_threshold, hart_context_eq, hh]
    · refine ⟨SupervisorMode, s.regs (hart_entry (2 + (2 * HARTS - 1)) hart).s_mode 0, hl, ?_⟩
      simp [get_threshold, hart_context_eq, hh, h0]

/-- On a hart of the controller every iteration of the loop returns. -/
theorem scan_body_returns (HARTS : Nat) (s : FU540_PLIC) (hart : Nat) (ignth : Bool)
    (irq : Nat) (st : Scan) (hh : hart < HARTS) :
    ∃ st2, scan_body HARTS s hart ignth (enabled_irqs HARTS hart) irq st = .ok st2 := by
  have hconf : enabled_irqs HARTS hart = some (hart_entry 2 hart) := by
    simp [enabled_irqs_eq, hh]
  rw [hconf]
  simp only [scan_body]
  cases he : ((hart_entry 2 hart).is_enabled s irq st.level).1
  · simp
  · cases hp : is_pending s irq
    · simp
    · obtain ⟨lvl, thr, hl, hg⟩ := get_threshold_of_enabled HARTS s hart irq st.level hh he
      cases ignth with
      | true => simp
      | false =>
        simp only [Bool.not_true, Bool.or_self, Bool.false_eq_true, if_false, hl, hg]
        split <;> simp

/-- On a hart of the controller the loop returns. -/
theorem scan_loop_returns (HARTS : Nat) (s : FU540_PLIC) (hart : Nat) (ignth : Bool)
    (hh : hart < HARTS) (irqs : List Nat) :
    ∀ st : Scan, ∃ st2,
      scan_loop HARTS s hart ignth (enabled_irqs HARTS hart) irqs st = .ok st2 := by
  induction irqs with
  | nil => intro st; exact ⟨st, rfl⟩
  | cons irq rest ih =>
    intro st
    obtain ⟨st1, h1⟩ := scan_body_returns HARTS s hart ignth irq st hh
    obtain ⟨st2, h2⟩ := ih st1
    exact ⟨st2, by simp [scan_loop, h1, h2]⟩

/-- On a hart of the controller the scan returns, and its selection is the lowest
of the candidates of the highest priority among the sources `1 .. NUMIRQ`. -/
theorem scan_selected (HARTS NUMIRQ : Nat) (s : FU540_PLIC) (hart : Nat) (ignth : Bool)
    (hh : hart < HARTS) :
    ∃ st, scan HARTS NUMIRQ s hart ignth = .ok st ∧
      Selected s (candidate HARTS s hart ignth (hart_entry 2 hart)) (1 + NUMIRQ)
        st.selirq st.maxpri := by
  obtain ⟨st, hst⟩ := scan_loop_returns HARTS s hart ignth hh (List.range' 1 NUMIRQ)
    ⟨none, 0, 0⟩
  refine ⟨st, hst, ?_⟩
  have hconf : enabled_irqs HARTS hart = some (hart_entry 2 hart) := by
    simp [enabled_irqs_eq, hh]
  rw [hconf] at hst
  refine scan_loop_selected HARTS s hart ignth _ NUMIRQ 1 ⟨none, 0, 0⟩ st (le_refl 1) ?_ hst
  exact ⟨fun _ => ⟨rfl, fun c h1 h2 => by omega⟩, fun h => absurd rfl h⟩

/-- Outside the harts of the controller the scan returns only when there is no
source to scan, with nothing selected. -/
theorem scan_no_hart (HARTS NUMIRQ : Nat) (s : FU540_PLIC) (hart : Nat) (ignth : Bool)
    (st : Scan) (hh : ¬ hart < HARTS) (h : scan HARTS NUMIRQ s hart ignth = .ok st) :
    st = ⟨none, 0, 0⟩ := by
  have hconf : enabled_irqs HARTS hart = none := by simp [enabled_irqs_eq, hh]
  unfold scan at h
  rw [hconf] at h
  exact scan_loop_no_config HARTS s hart ignth _ _ _ h

/-- C16: on every hart of the controller the scan of `next_pending_irq` returns,
and the candidate it has chosen at loop exit (`selirq`) is 0 exactly when no
source in `1 .. NUMIRQ` is pending, enabled for the hart, passes the threshold
test of the loop and has a priority above 0; otherwise it is such a source, no
such source has a higher priority, and no such source of the same priority has a
lower id. -/
theorem C16_scan_selects_lowest_of_highest (HARTS NUMIRQ : Nat) (s : FU540_PLIC)
    (hart : Nat) (ignth : Bool) (hh : hart < HARTS) :
    ∃ st conf, enabled_irqs HARTS hart = some conf ∧
      scan HARTS NUMIRQ s hart ignth = .ok st ∧
      (st.selirq = 0 ↔
        ∀ c, 1 ≤ c → c ≤ NUMIRQ → candidate HARTS s hart ignth conf c = false) ∧
      (st.selirq ≠ 0 →
        1 ≤ st.selirq ∧ st.selirq ≤ NUMIRQ ∧
        candidate HARTS s hart ignth conf st.selirq = true ∧
        ∀ c, 1 ≤ c → c ≤ NUMIRQ → candidate HARTS s hart ignth conf c = true →
          s.interrupt_priorities c ≤ s.interrupt_priorities st.selirq ∧
          (s.interrupt_priorities c = s.interrupt_priorities st.selirq → st.selirq ≤ c)) := by
  obtain ⟨st, hst, h0, h1⟩ := scan_selected HARTS NUMIRQ s hart ignth hh
  refine ⟨st, hart_entry 2 hart, by simp [enabled_irqs_eq, hh], hst, ⟨?_, ?_⟩, ?_⟩
  · intro hs c hc1 hc2
    exact (h0 hs).2 c hc1 (by omega)
  · intro hall
    by_contra hs
    obtain ⟨g1, g2, _, _⟩ := h1 hs
    have := hall st.selirq (Nat.pos_of_ne_zero hs) (by omega)
    rw [this] at g2
    cases g2
  · intro hs
    obtain ⟨g1, g2, g3, g4⟩ := h1 hs
    refine ⟨Nat.pos_of_ne_zero hs, by omega, g2, ?_⟩
    intro c hc1 hc2 hc
    rw [g3]
    exact g4 c hc1 (by omega) hc

/-- C16 on hart 0 in the scenario of the spec. -/
theorem C16_scan_selects_lowest_of_highest_witness :
    ∃ st conf, enabled_irqs 5 0 = some conf ∧
      scan 5 53 two_sources 0 false = .ok st ∧
      (st.selirq = 0 ↔
        ∀ c, 1 ≤ c → c ≤ 53 → candidate 5 two_sources 0 false conf c = false) ∧
      (st.selirq ≠ 0 →
        1 ≤ st.selirq ∧ st.selirq ≤ 53 ∧
        candidate 5 two_sources 0 false conf st.selirq = true ∧
        ∀ c, 1 ≤ c → c ≤ 53 → candidate 5 two_sources 0 false conf c = true →
          two_sources.interrupt_priorities c ≤ two_sources.interrupt_priorities st.selirq ∧
          (two_sources.interrupt_priorities c = two_sources.interrupt_priorities st.selirq →
            st.selirq ≤ c)) :=
  C16_scan_selects_lowest_of_highest 5 53 two_sources 0 false (by decide)

/-- C11: when the enable bit of a source `src` is clear in both enable words of a
hart, the scan of `next_pending_irq` for that hart returns and does not select
`src`, whatever its pending flag and its priority. -/
theorem C11_disabled_source_not_selected (HARTS NUMIRQ : Nat) (s : FU540_PLIC)
    (hart : Nat) (ignth : Bool) (conf : HartConfig) (src : Nat) (hsrc : 1 ≤ src)
    (hconf : enabled_irqs HARTS hart = some conf)
    (hm : s.regs conf.m_mode (GET_IDX src) &&& GET_OFF src = 0)
    (hs : s.regs conf.s_mode (GET_IDX src) &&& GET_OFF src = 0) :
    ∃ st, scan HARTS NUMIRQ s hart ignth = .ok st ∧ st.selirq ≠ src := by
  have hh : hart < HARTS := by
    by_contra hh
    simp [enabled_irqs_eq, hh] at hconf
  have hc : conf = hart_entry 2 hart := by
    simp [enabled_irqs_eq, hh] at hconf
    exact hconf.symm
  obtain ⟨st, hst, _, h1⟩ := scan_selected HARTS NUMIRQ s hart ignth hh
  refine ⟨st, hst, ?_⟩
  intro heq
  have hne : st.selirq ≠ 0 := by omega
  have hcand := (h1 hne).2.1
  rw [heq, ← hc] at hcand
  simp [candidate, HartConfig.is_enabled, hm, hs] at hcand

/-- C11 on source 3 of hart 0 in the scenario of the spec, made pending and given
the highest priority. -/
theorem C11_disabled_source_not_selected_witness :
    ∃ st, scan 5 53
        { two_sources with
            interrupt_priorities := fun i => if i = 3 then 9 else two_sources.interrupt_priorities i
            pending_interrupts := fun i => if i = 0 then 14 else 0 } 0 false = .ok st ∧
      st.selirq ≠ 3 :=
  C11_disabled_source_not_selected 5 53 _ 0 false ⟨2, 2⟩ 3 (by decide) (by decide)
    (by decide) (by decide)

/-- C12: a source selected by the scan of `next_pending_irq` has a priority above
0, so a source of priority 0 is never selected, with the threshold applied or
ignored; and on every hart of the controller the scan returns. -/
theorem C12_selected_priority_positive (HARTS NUMIRQ : Nat) (s : FU540_PLIC)
    (hart : Nat) (ignth : Bool) :
    (∀ st, scan HARTS NUMIRQ s hart ignth = .ok st →
      (st.selirq ≠ 0 → 0 < s.interrupt_priorities st.selirq) ∧
      (∀ src, 1 ≤ src → s.interrupt_priorities src = 0 → st.selirq ≠ src)) ∧
    (hart < HARTS → ∃ st, scan HARTS NUMIRQ s hart ignth = .ok st) := by
  have key : ∀ st, scan HARTS NUMIRQ s hart ignth = .ok st →
      st.selirq ≠ 0 → 0 < s.interrupt_priorities st.selirq := by
    intro st hst hne
    by_cases hh : hart < HARTS
    · obtain ⟨st2, hst2, _, h1⟩ := scan_selected HARTS NUMIRQ s hart ignth hh
      rw [hst] at hst2
      cases hst2
      have hcand := (h1 hne).2.1
      unfold candidate at hcand
      simp only [Bool.and_eq_true, decide_eq_true_eq] at hcand
      exact hcand.2
    · have := scan_no_hart HARTS NUMIRQ s hart ignth st hh hst
      rw [this] at hne
      exact absurd rfl hne
  refine ⟨fun st hst => ⟨key st hst, ?_⟩, fun hh => ?_⟩
  · intro src hsrc hp heq
    have := key st hst (by omega)
    rw [heq, hp] at this
    exact absurd this (lt_irrefl 0)
  · obtain ⟨st, hst, _⟩ := scan_selected HARTS NUMIRQ s hart ignth hh
    exact ⟨st, hst⟩

/-- C12 on hart 0 of the quiet controller with every source pending and enabled:
nothing is selected, with the threshold ignored. -/
theorem C12_selected_priority_positive_witness :
    ∃ st, scan 5 53
        { quiet with
            pending_interrupts := fun _ => 0xFFFFFFFF
            regs := fun k i => if k = 2 then 0xFFFFFFFF else quiet.regs k i } 0 true = .ok st ∧
      st.selirq = 0 :=
  have h := C12_selected_priority_positive 5 53
    { quiet with
        pending_interrupts := fun _ => 0xFFFFFFFF
        regs := fun k i => if k = 2 then 0xFFFFFFFF else quiet.regs k i } 0 true
  (h.2 (by decide)).elim fun st hst =>
    ⟨st, hst, by
      by_contra hne
      exact absurd ((h.1 st hst).1 hne) (by simp [quiet])⟩

/-! ## The level that is returned -/

/-- C17 (the code does not do this): on hart 1 with source 1 enabled in Machine
mode, pending and of priority 7, and source 2 enabled in Supervisor mode, the
scan selects source 1 but `next_pending_irq` returns the level Supervisor: every
later `is_enabled` call that succeeds overwrites `level`. -/
theorem C17_level_of_a_later_source_returned :
    enabled_irqs 5 1 = some ⟨3, 4⟩ ∧
    HartConfig.is_enabled two_modes ⟨3, 4⟩ 1 none = (true, some MachineMode) ∧
    HartConfig.is_enabled two_modes ⟨3, 4⟩ 2 none = (true, some SupervisorMode) ∧
    is_pending two_modes 1 = true ∧ is_pending two_modes 2 = false ∧
    scan 5 53 two_modes 1 false = .ok ⟨some SupervisorMode, 1, 7⟩ ∧
    next_pending_irq 5 53 two_modes 1 false = .ok (1, some SupervisorMode) := by
  refine ⟨by decide, by decide, by decide, by decide, by decide, by decide, by decide⟩

/-- Without a `HartConfig` the loop returns at once or has no defined behaviour. -/
theorem scan_none_error (HARTS : Nat) (s : FU540_PLIC) (hart : Nat) (ignth : Bool)
    (irqs : List Nat) (st : Scan) :
    scan_loop HARTS s hart ignth none irqs st = .ok st ∨
    scan_loop HARTS s hart ignth none irqs st = .error .undefined := by
  cases irqs with
  | nil => exact Or.inl rfl
  | cons irq rest => exact Or.inr (by simp [scan_loop, scan_body])

/-- C19: a `HartConfig` whose `m_mode` and `s_mode` view the same range, as the
one of hart 0 in `enabled_irqs`, reports every enabled source as Machine and never
as Supervisor; and `next_pending_irq(0, ignth)` never throws the
`invalid_argument` "hart0 doesn't support SupervisorMode". -/
theorem C19_hart0_never_supervisor (HARTS NUMIRQ : Nat) (s : FU540_PLIC) (ignth : Bool) :
    (∀ conf, enabled_irqs HARTS 0 = some conf → conf.m_mode = conf.s_mode) ∧
    (∀ (conf : HartConfig) (irq : Nat) (level : Option PrivilegeLevel),
      conf.m_mode = conf.s_mode →
      ((conf.is_enabled s irq level).1 = true →
        (conf.is_enabled s irq level).2 = some MachineMode) ∧
      (level ≠ some SupervisorMode →
        (conf.is_enabled s irq level).2 ≠ some SupervisorMode)) ∧
    next_pending_irq HARTS NUMIRQ s 0 ignth ≠
      .error (.invalid_argument .hart0_no_supervisor) ∧
    (0 < HARTS → ∃ r, next_pending_irq HARTS NUMIRQ s 0 ignth = .ok r) := by
  have hret : 0 < HARTS → ∃ r, next_pending_irq HARTS NUMIRQ s 0 ignth = .ok r := by
    intro hH
    obtain ⟨st, hst⟩ := scan_loop_returns HARTS s 0 ignth hH (List.range' 1 NUMIRQ)
      ⟨none, 0, 0⟩
    exact ⟨(0, st.level), by simp [next_pending_irq, scan, hst]⟩
  refine ⟨?_, ?_, ?_, hret⟩
  · intro conf hconf
    by_cases hH : 0 < HARTS
    · simp [enabled_irqs_eq, hH] at hconf
      rw [← hconf]
      rfl
    · simp [enabled_irqs_eq, hH] at hconf
  · intro conf irq level hc
    exact ⟨is_enabled_shared_true s conf irq level hc,
      is_enabled_shared_view s conf irq level hc⟩
  · by_cases hH : 0 < HARTS
    · obtain ⟨r, hr⟩ := hret hH
      rw [hr]
      simp
    · have hconf : enabled_irqs HARTS 0 = none := by simp [enabled_irqs_eq, hH]
      unfold next_pending_irq scan
      rw [hconf]
      rcases scan_none_error HARTS s 0 ignth (List.range' 1 NUMIRQ) ⟨none, 0, 0⟩ with h | h
      · rw [h]; simp
      · rw [h]; simp

/-- C19 on the controller with 5 harts, in a state in which every enable bit of
hart 0 is set. -/
theorem C19_hart0_never_supervisor_witness :
    (HartConfig.is_enabled { quiet with regs := fun _ _ => 0xFFFFFFFF } ⟨2, 2⟩ 7 none).2 =
      some MachineMode ∧
    ∃ r, next_pending_irq 5 53 { quiet with regs := fun _ _ => 0xFFFFFFFF } 0 false = .ok r :=
  have h := C19_hart0_never_supervisor 5 53 { quiet with regs := fun _ _ => 0xFFFFFFFF } false
  ⟨(h.2.1 ⟨2, 2⟩ 7 none rfl).1 (by decide), h.2.2.2 (by decide)⟩

/-! ## Misaligned reads -/

/-- C13 as stated fails: a read of hart 0's claim word at a misaligned address, or
of a size other than 4, ends in a failed `assert`, which aborts the process; no
error is handed to the transaction. -/
theorem C13_misaligned_read_counterexample :
    read_hartconf 5 53 two_sources ⟨0x200006, 4⟩ = .error .assertion ∧
    read_hartconf 5 53 two_sources ⟨0x200004, 2⟩ = .error .assertion := by
  exact ⟨rfl, rfl⟩

/-- C13 (amended): a read whose address is not a multiple of 4 or whose size is
not 4 fails an assertion of `read_hartconf`, before any register is read or
written. A 4-byte read at a multiple of 4 passes these two assertions: on a
threshold word (an even word) it returns and leaves the state as it was, and on a
claim word (an odd word) it returns whenever `next_pending_irq` returns an id with
an assigned level. -/
theorem C13_misaligned_read_asserts (HARTS NUMIRQ : Nat) (s : FU540_PLIC) (t : ReadInfo) :
    (t.addr % 4 ≠ 0 ∨ t.size ≠ 4 → read_hartconf HARTS NUMIRQ s t = .error .assertion) ∧
    (t.addr % 4 = 0 → t.size = 4 → u32 (t.addr / 4) % 2 ≠ 1 →
      read_hartconf HARTS NUMIRQ s t = .ok s) ∧
    (t.addr % 4 = 0 → t.size = 4 → u32 (t.addr / 4) % 2 = 1 →
      ∀ irq lvl,
        next_pending_irq HARTS NUMIRQ s (addr2hart t.addr) false = .ok (irq, some lvl) →
        ∃ s2, read_hartconf HARTS NUMIRQ s t = .ok s2) := by
  refine ⟨?_, ?_, ?_⟩
  · intro h
    unfold read_hartconf
    by_cases ha : t.addr % 4 ≠ 0
    · rw [if_pos ha]
    · rw [if_neg ha]
      have hs : t.size ≠ 4 := by
        rcases h with h | h
        · exact absurd h ha
        · exact h
      rw [if_pos hs]
  · intro ha hs heven
    simp [read_hartconf, ha, hs, heven]
  · intro ha hs hodd irq lvl hnp
    have h0 : addr2hart t.addr = 0 := rfl
    rw [h0] at hnp
    obtain ⟨hl, hH, _⟩ := next_pending_irq_hart0_level HARTS NUMIRQ s false irq lvl hnp
    subst hl
    have hctx : hart_context HARTS 0 = some (hart_entry (2 + (2 * HARTS - 1)) 0) := by
      simp [hart_context_eq, hH]
    exact ⟨s.store (hart_entry (2 + (2 * HARTS - 1)) 0).m_mode 1 irq,
      by simp [read_hartconf, ha, hs, hodd, h0, hnp, hctx]⟩

/-- C13 (amended) on reads of the context block of hart 0 in the scenario of the
spec: a misaligned read, a read of the threshold word, a read of the claim word. -/
theorem C13_misaligned_read_asserts_witness :
    read_hartconf 5 53 two_sources ⟨0x200006, 4⟩ = .error .assertion ∧
    read_hartconf 5 53 two_sources ⟨0x200000, 4⟩ = .ok two_sources ∧
    ∃ s2, read_hartconf 5 53 two_sources ⟨0x200004, 4⟩ = .ok s2 :=
  ⟨(C13_misaligned_read_asserts 5 53 two_sources ⟨0x200006, 4⟩).1 (Or.inl (by decide)),
   (C13_misaligned_read_asserts 5 53 two_sources ⟨0x200000, 4⟩).2.1 (by decide) (by decide)
     (by decide),
   (C13_misaligned_read_asserts 5 53 two_sources ⟨0x200004, 4⟩).2.2 (by decide) (by decide)
     (by decide) 0 MachineMode (by decide)⟩

/-! ## Triggering twice -/

/-- C14: for `irq` not above `NUMIRQ`, so for `irq` in `[1, NUMIRQ]`, a second
`gateway_trigger_interrupt(irq)` returns the state the first one left; and
triggering a source that is already pending (in a state whose pending word is a
32-bit value) returns the state unchanged. -/
theorem C14_trigger_idempotent (NUMIRQ : Nat) (s : FU540_PLIC) (irq : Nat)
    (h : irq ≤ NUMIRQ) :
    ∃ s1, gateway_trigger_interrupt NUMIRQ s irq = .ok s1 ∧
      gateway_trigger_interrupt NUMIRQ s1 irq = .ok s1 ∧
      (is_pending s irq = true → s.pending_interrupts (GET_IDX irq) < 2 ^ 32 → s1 = s) := by
  have hle : ¬ irq > NUMIRQ := by omega
  have h32 : irq % 32 < 32 := Nat.mod_lt _ (by decide)
  have hidem : ∀ w : Nat, u32 (u32 (w ||| GET_OFF irq) ||| GET_OFF irq) =
      u32 (w ||| GET_OFF irq) := by
    intro w
    apply Nat.eq_of_testBit_eq
    intro i
    unfold u32
    simp only [Nat.testBit_mod_two_pow, Nat.testBit_or, GET_OFF_eq, Nat.testBit_two_pow]
    by_cases hi : i < 32
    · simp only [hi, decide_True, Bool.true_and]
      cases w.testBit i <;> cases decide (irq % 32 = i) <;> rfl
    · simp [hi]
  simp only [gateway_trigger_interrupt, hle, if_false]
  refine ⟨_, rfl, ?_, ?_⟩
  · congr 1
    cases s with
    | mk pr pe rg =>
      simp only [FU540_PLIC.mk.injEq, true_and, and_true]
      funext i
      by_cases hi : i = GET_IDX irq
      · simp only [hi, if_true]
        exact hidem _
      · simp only [hi, if_false]
  · intro hp hw
    cases s with
    | mk pr pe rg =>
      simp only [FU540_PLIC.mk.injEq, true_and, and_true]
      funext i
      by_cases hi : i = GET_IDX irq
      · subst hi
        simp only [if_true]
        rw [is_pending_eq] at hp
        simp only [GET_IDX] at hp hw ⊢
        apply Nat.eq_of_testBit_eq
        intro j
        unfold u32
        simp only [Nat.testBit_mod_two_pow, Nat.testBit_or, GET_OFF_eq, Nat.testBit_two_pow]
        by_cases hj : j < 32
        · by_cases hk : irq % 32 = j
          · subst hk
            simp [hj, hp]
          · simp [hj, hk]
        · have : (pe (irq / 32)).testBit j = false := by
            apply Nat.testBit_lt_two_pow
            calc pe (irq / 32) < 2 ^ 32 := hw
              _ ≤ 2 ^ j := Nat.pow_le_pow_right (by decide) (by omega)
          simp [hj, this]
      · simp only [hi, if_false]

/-- C14 on source 2 of the scenario of the spec, where it is already pending. -/
theorem C14_trigger_idempotent_witness :
    ∃ s1, gateway_trigger_interrupt 53 two_sources 2 = .ok s1 ∧
      gateway_trigger_interrupt 53 s1 2 = .ok s1 ∧
      (is_pending two_sources 2 = true →
        two_sources.pending_interrupts (GET_IDX 2) < 2 ^ 32 → s1 = two_sources) :=
  C14_trigger_idempotent 53 two_sources 2 (by decide)

/-! ## The scan leaves the registers alone -/

theorem scan_loop_run_eq (HARTS : Nat) (hart : Nat) (ignth : Bool)
    (conf : Option HartConfig) (irqs : List Nat) :
    ∀ (s : FU540_PLIC) (st : Scan),
      scan_loop_run HARTS hart ignth conf irqs s st =
        (s, scan_loop HARTS s hart ignth conf irqs st) := by
  induction irqs with
  | nil => intro s st; rfl
  | cons irq rest ih =>
    intro s st
    simp only [scan_loop_run, scan_body_run, scan_loop]
    cases scan_body HARTS s hart ignth conf irq st with
    | error e => rfl
    | ok st2 => exact ih s st2

/-- C15: `next_pending_irq` leaves the controller state as it was, for every
state, hart and `ignth`, whether it returns or throws: the pending bitmap, the
priorities and the words of every hart range (enable bitmaps, thresholds and claim
words) after the call are those before it. -/
theorem C15_next_pending_irq_keeps_state (HARTS NUMIRQ : Nat) (s : FU540_PLIC)
    (hart : Nat) (ignth : Bool) :
    (next_pending_irq_run HARTS NUMIRQ s hart ignth).1 = s ∧
    (next_pending_irq_run HARTS NUMIRQ s hart ignth).1.pending_interrupts =
      s.pending_interrupts ∧
    (next_pending_irq_run HARTS NUMIRQ s hart ignth).1.interrupt_priorities =
      s.interrupt_priorities ∧
    (next_pending_irq_run HARTS NUMIRQ s hart ignth).1.regs = s.regs ∧
    (next_pending_irq_run HARTS NUMIRQ s hart ignth).2 =
      next_pending_irq HARTS NUMIRQ s hart ignth := by
  have h1 : (next_pending_irq_run HARTS NUMIRQ s hart ignth).1 = s := by
    unfold next_pending_irq_run
    rw [scan_loop_run_eq]
    cases scan_loop HARTS s hart ignth (enabled_irqs HARTS hart) (List.range' 1 NUMIRQ)
      ⟨none, 0, 0⟩ <;> rfl
  refine ⟨h1, by rw [h1], by rw [h1], by rw [h1], ?_⟩
  unfold next_pending_irq_run next_pending_irq scan
  rw [scan_loop_run_eq]
  cases scan_loop HARTS s hart ignth (enabled_irqs HARTS hart) (List.range' 1 NUMIRQ)
    ⟨none, 0, 0⟩ <;> rfl

/-! ## The register windows -/

/-- The ranges `create_registers` leaves in `register_ranges`, with every address
written out, for a hart count whose enable ranges end below `CONTEXT_BASE`. -/
theorem register_ranges_eq (HARTS : Nat)
    (h : 0x2000 + (2 * HARTS - 2) * 0x80 + 8 ≤ 0x200000) :
    (layout HARTS).register_ranges =
      ([⟨0x4, 0xD8⟩, ⟨0x1000, 8⟩] ++
        (List.range (2 * HARTS - 1)).map (fun k => ⟨0x2000 + k * 0x80, 8⟩)) ++
        (List.range (2 * HARTS - 1)).map (fun k => ⟨0x200000 + k * 0x1000, 8⟩) := by
  have hsz : HART_REG_SIZE = 8 := rfl
  simp only [layout, create_registers, assert_addr, regs_interrupt_priorities,
    regs_pending_interrupts, RegisterRange.last, create_hart_regs_eq, hsz,
    ENABLE_BASE, ENABLE_PER_HART, CONTEXT_BASE, CONTEXT_PER_HART]
  simp only [Nat.reduceAdd, Nat.reduceSub, Nat.reduceMul, and_self, if_true]
  congr 1
  · congr 1
    apply List.map_congr_left
    intro k hk
    have hk2 : k < 2 * HARTS - 1 := List.mem_range.mp hk
    have : 0x2000 + k * 0x80 < 2 ^ 64 := by omega
    simp only [u64, Nat.mod_eq_of_lt this]
  · apply List.map_congr_left
    intro k hk
    have hk2 : k < 2 * HARTS - 1 := List.mem_range.mp hk
    have : 0x200000 + k * 0x1000 < 2 ^ 64 := by omega
    simp only [u64, Nat.mod_eq_of_lt this]

/-- Ranges of one block, a stride of more than their size apart, do not overlap. -/
theorem block_pairwise (base stride n : Nat) (hs : 8 ≤ stride) :
    List.Pairwise (fun a b : RegisterRange => ¬ a.overlaps b)
      ((List.range n).map (fun k => ⟨base + k * stride, 8⟩)) := by
  rw [List.pairwise_map]
  refine (List.pairwise_lt_range n).imp ?_
  intro i j hij hov
  simp only [RegisterRange.overlaps, RegisterRange.last] at hov
  have : (i + 1) * stride ≤ j * stride := Nat.mul_le_mul_right _ hij
  have h2 : (i + 1) * stride = i * stride + stride := by ring
  omega

/-- C18: for every hart count whose enable ranges end below `CONTEXT_BASE` (so
for the 5 harts of the FU540), `create_registers` succeeds and registers the
priority range `[0x4, 0xDB]`, the pending range `[0x1000, 0x1007]`, `2 * HARTS - 1`
enable ranges of 8 bytes at `0x2000 + k * 0x80` and `2 * HARTS - 1` context ranges
of 8 bytes at `0x200000 + k * 0x1000`, and no two of the registered ranges share a
byte. -/
theorem C18_register_ranges_disjoint (HARTS : Nat)
    (h : 0x2000 + (2 * HARTS - 2) * 0x80 + 8 ≤ 0x200000) :
    create_registers HARTS = .ok (layout HARTS) ∧
    (layout HARTS).register_ranges =
      ([⟨0x4, 0xD8⟩, ⟨0x1000, 8⟩] ++
        (List.range (2 * HARTS - 1)).map (fun k => ⟨0x2000 + k * 0x80, 8⟩)) ++
        (List.range (2 * HARTS - 1)).map (fun k => ⟨0x200000 + k * 0x1000, 8⟩) ∧
    (RegisterRange.last ⟨0x4, 0xD8⟩ = 0xDB ∧ RegisterRange.last ⟨0x1000, 8⟩ = 0x1007) ∧
    List.Pairwise (fun a b : RegisterRange => ¬ a.overlaps b)
      (layout HARTS).register_ranges := by
  refine ⟨create_registers_eq HARTS, register_ranges_eq HARTS h, ⟨rfl, rfl⟩, ?_⟩
  rw [register_ranges_eq HARTS h]
  rw [List.pairwise_append, List.pairwise_append]
  refine ⟨⟨?_, block_pairwise 0x2000 0x80 _ (by decide), ?_⟩,
    block_pairwise 0x200000 0x1000 _ (by decide), ?_⟩
  · simp [RegisterRange.overlaps, RegisterRange.last]
  · intro a ha b hb
    simp only [List.mem_map, List.mem_range] at hb
    obtain ⟨k, hk, rfl⟩ := hb
    simp only [List.mem_cons, List.mem_singleton, List.not_mem_nil, or_false] at ha
    rcases ha with rfl | rfl <;>
      simp only [RegisterRange.overlaps, RegisterRange.last] <;> omega
  · intro a ha b hb
    simp only [List.mem_map, List.mem_range] at hb
    obtain ⟨k, hk, rfl⟩ := hb
    simp only [List.mem_append, List.mem_cons, List.mem_singleton, List.not_mem_nil, or_false,
      List.mem_map, List.mem_range] at ha
    rcases ha with (rfl | rfl) | ⟨j, hj, rfl⟩ <;>
      simp only [RegisterRange.overlaps, RegisterRange.last] <;> omega

/-- C18 on the FU540, which has 5 harts: 20 ranges, the last one at 0x208000. -/
theorem C18_register_ranges_disjoint_witness :
    (layout 5).register_ranges.length = 20 ∧
    (layout 5).register_ranges[19]? = some ⟨0x208000, 8⟩ ∧
    List.Pairwise (fun a b : RegisterRange => ¬ a.overlaps b) (layout 5).register_ranges :=
  ⟨by decide, by decide, (C18_register_ranges_disjoint 5 (by decide)).2.2.2⟩

end FU540

namespace GD32

/-! ## The bit operate register -/

/-- The mask test of the loop: the two bits of a word from position `k` on are not
both 0. -/
theorem and_mode_mask_pos (x k : Nat) :
    (x &&& (0b11 <<< k)) > 0 ↔ (x.testBit k || x.testBit (k + 1)) = true := by
  constructor
  · intro h
    obtain ⟨i, hi⟩ := Nat.ne_zero_implies_bit_true (Nat.pos_iff_ne_zero.mp h)
    simp only [Nat.testBit_and, Nat.testBit_shiftLeft, Bool.and_eq_true,
      decide_eq_true_eq] at hi
    obtain ⟨hx, hki, h3⟩ := hi
    have hlt : i - k < 2 := by
      by_contra hge
      have : Nat.testBit 3 (i - k) = false := by
        apply Nat.testBit_lt_two_pow
        calc 3 < 2 ^ 2 := by decide
          _ ≤ 2 ^ (i - k) := Nat.pow_le_pow_right (by decide) (by omega)
      rw [this] at h3
      cases h3
    have hcase : i = k ∨ i = k + 1 := by omega
    rcases hcase with rfl | rfl
    · simp [hx]
    · simp [hx]
  · intro h
    apply Nat.pos_of_ne_zero
    intro h0
    simp only [Bool.or_eq_true] at h
    rcases h with h | h
    · have := congrArg (fun n => Nat.testBit n k) h0
      simp [Nat.testBit_shiftLeft, h] at this
    · have := congrArg (fun n => Nat.testBit n (k + 1)) h0
      simp [Nat.testBit_shiftLeft, h] at this
      exact absurd this (by decide)

/-- One `output_en |= flag << i` of the loop, bit by bit. -/
theorem testBit_or_flag (en : Nat) (c : Prop) [Decidable c] (i j : Nat) :
    (u16 (en ||| ((if c then 1 else 0) <<< i))).testBit j =
      (decide (j < 16) && (en.testBit j || (decide (j = i) && decide c))) := by
  unfold u16
  rw [Nat.testBit_mod_two_pow, Nat.testBit_or, Nat.testBit_shiftLeft]
  by_cases hc : c
  · simp only [hc, if_true, decide_True, Bool.and_true]
    by_cases hji : j = i
    · subst hji
      simp
    · have : (decide (j ≥ i) && Nat.testBit 1 (j - i)) = false := by
        by_cases hge : j ≥ i
        · have : Nat.testBit 1 (j - i) = false := by
            apply Nat.testBit_lt_two_pow
            calc 1 < 2 ^ 1 := by decide
              _ ≤ 2 ^ (j - i) := Nat.pow_le_pow_right (by decide) (by omega)
          simp [this]
        · simp [hge]
      simp [this, hji]
  · simp [hc]

/-- The bits of `output_en`: bit `i` for a pin `i` of `gpio_ctl0`, bit `i + 8` for a
pin of `gpio_ctl1`, set when the two mode bits of the pin are not both 0. -/
theorem output_en_testBit (g : GPIO) (j : Nat) :
    (output_en g).testBit j =
      if j < 8 then (g.gpio_ctl0.testBit (4 * j) || g.gpio_ctl0.testBit (4 * j + 1))
      else if j < 16 then
        (g.gpio_ctl1.testBit (4 * (j - 8)) || g.gpio_ctl1.testBit (4 * (j - 8) + 1))
      else false := by
  have hr : List.range 8 = [0, 1, 2, 3, 4, 5, 6, 7] := by decide
  have hd : ∀ (x k : Nat), decide ((x &&& (0b11 <<< k)) > 0) =
      (x.testBit k || x.testBit (k + 1)) := by
    intro x k
    rw [Bool.eq_iff_iff, decide_eq_true_eq]
    exact and_mode_mask_pos x k
  unfold output_en
  rw [hr]
  simp only [List.foldl, output_en_body, testBit_or_flag, hd, Nat.zero_testBit]
  by_cases h16 : j < 16
  · interval_cases j <;> simp
  · have h8 : ¬ j < 8 := by omega
    simp [h16, h8]

theorem output_en_lt (g : GPIO) : output_en g < 2 ^ 16 := by
  apply Nat.lt_pow_two_of_testBit
  intro i hi
  rw [output_en_testBit]
  have h1 : ¬ i < 8 := by
    intro h
    have : 2 ^ i < 2 ^ 16 := Nat.pow_lt_pow_right (by decide) (by omega)
    omega
  have h2 : ¬ i < 16 := by
    intro h
    have : 2 ^ i < 2 ^ 16 := Nat.pow_lt_pow_right (by decide) h
    omega
  simp [h1, h2]

theorem complement32_testBit (m i : Nat) (h : m < 2 ^ 32) :
    (complement32 m).testBit i = (decide (i < 32) && !m.testBit i) := by
  have : complement32 m = 2 ^ 32 - (m + 1) := by unfold complement32; omega
  rw [this]
  exact Nat.testBit_two_pow_sub_succ h i

/-- C20: a write of `v` to the bit operate register, with `set = v[15:0]`,
`clear = v[31:16]` and `en` the mask that the loop collects, leaves
`OCTL = (OCTL & ~(clear & en)) | (set & en)`. Bit `i` of `en` is set exactly when
`i < 16` and the two mode bits of pin `i` (bits `4i` and `4i + 1` of `gpio_ctl0` for
the pins 0 to 7, of `gpio_ctl1` for the pins 8 to 15) are not both 0. So the output
bit of a pin whose `en` bit is clear is unchanged, and the output bit of a pin whose
`en` bit is set becomes 1 when its set bit is 1 (also when its clear bit is 1), 0
when only its clear bit is 1, and is unchanged when both are 0. -/
theorem C20_bop_write_updates_octl (g : GPIO) (r : register_access_t)
    (hw : r.write = true) (ha : r.addr = .GPIO_BOP_REG_ADDR)
    (hfn : ∀ g2, (r.fn g2).gpio_octl = g2.gpio_octl) (hoctl : g.gpio_octl < 2 ^ 32) :
    (register_access_callback g r).gpio_octl =
      (g.gpio_octl &&& complement32 (u16 (r.nv >>> 16) &&& output_en g)) |||
        (u16 r.nv &&& output_en g) ∧
    (∀ i, (output_en g).testBit i =
      if i < 8 then (g.gpio_ctl0.testBit (4 * i) || g.gpio_ctl0.testBit (4 * i + 1))
      else if i < 16 then
        (g.gpio_ctl1.testBit (4 * (i - 8)) || g.gpio_ctl1.testBit (4 * (i - 8) + 1))
      else false) ∧
    (∀ i, (register_access_callback g r).gpio_octl.testBit i =
      if (output_en g).testBit i = true then
        (r.nv.testBit i || (g.gpio_octl.testBit i && !r.nv.testBit (16 + i)))
      else g.gpio_octl.testBit i) := by
  have hval : (register_access_callback g r).gpio_octl =
      (g.gpio_octl &&& complement32 (u16 (r.nv >>> 16) &&& output_en g)) |||
        (u16 r.nv &&& output_en g) := by
    simp only [register_access_callback, hw, ha, if_true, hfn]
  refine ⟨hval, output_en_testBit g, ?_⟩
  intro i
  have hm : u16 (r.nv >>> 16) &&& output_en g < 2 ^ 32 := by
    have h1 : u16 (r.nv >>> 16) &&& output_en g ≤ output_en g := Nat.and_le_right
    have h2 := output_en_lt g
    omega
  rw [hval, Nat.testBit_or, Nat.testBit_and, complement32_testBit _ _ hm]
  simp only [Nat.testBit_and]
  cases hen : (output_en g).testBit i
  · simp only [Bool.and_false, Bool.not_false, Bool.and_true, Bool.or_false,
      Bool.false_eq_true, if_false]
    by_cases h32 : i < 32
    · simp [h32]
    · have : g.gpio_octl.testBit i = false := by
        apply Nat.testBit_lt_two_pow
        calc g.gpio_octl < 2 ^ 32 := hoctl
          _ ≤ 2 ^ i := Nat.pow_le_pow_right (by decide) (by omega)
      simp [this]
  · have h16 : i < 16 := by
      rw [output_en_testBit] at hen
      by_contra h
      have h8 : ¬ i < 8 := by omega
      simp [h, h8] at hen
    have h32 : i < 32 := by omega
    have hset : (u16 r.nv).testBit i = r.nv.testBit i := by
      unfold u16
      rw [Nat.testBit_mod_two_pow]
      simp [h16]
    have hclr : (u16 (r.nv >>> 16)).testBit i = r.nv.testBit (16 + i) := by
      unfold u16
      rw [Nat.testBit_mod_two_pow, Nat.testBit_shiftRight]
      simp [h16]
    simp only [hset, hclr, h32, decide_True, Bool.and_true, Bool.true_and, if_true]
    cases r.nv.testBit i <;> cases g.gpio_octl.testBit i <;>
      cases r.nv.testBit (16 + i) <;> rfl

/-- C20 on a write that names the pins 0 and 9, both outputs, in both halves, and
pin 1, not an output, in the clear half: the three output bits stay set. -/
theorem C20_bop_write_updates_octl_witness :
    (register_access_callback port bop_write).gpio_octl =
      (port.gpio_octl &&& complement32 (u16 (bop_write.nv >>> 16) &&& output_en port)) |||
        (u16 bop_write.nv &&& output_en port) ∧
    (register_access_callback port bop_write).gpio_octl = 0x203 ∧
    output_en port = 0x201 :=
  ⟨(C20_bop_write_updates_octl port bop_write rfl rfl (fun _ => rfl) (by decide)).1,
    by decide, by decide⟩

end GD32
